import Mathlib

/-!
Verification of the conversational contract-intake engine
(`backend/agents/contract_agent.py`, class `ProperLLMAgent`) against its
natural-language specification.

The Python code is shallowly embedded: pure string/dict manipulation is
translated to executable Lean functions over `String` / `List Char` /
association lists; the external collaborators (Ollama completion service,
spaCy tagger, renderer modules, DOCX writer, law JSON files, wall clock,
uuid source) are passed in as explicit parameters, exactly where the Python
code calls out to them.  Regular expressions from the source are translated
to equivalent hand-rolled scanners; each scanner carries a comment citing
the pattern it implements.
-/

set_option maxRecDepth 10000

namespace ContractAgent

/-! ## Python string primitives -/

/-- Remove leading and trailing whitespace from a char list. -/
def stripWSL (l : List Char) : List Char :=
  ((l.dropWhile Char.isWhitespace).reverse.dropWhile Char.isWhitespace).reverse

/-- Python `str.strip()` with no argument: remove leading and trailing
whitespace. -/
def pyStrip (s : String) : String := String.mk (stripWSL s.toList)

/-- Python `str.lower()` (ASCII letters; the agent only compares ASCII
keywords). -/
def pyLower (s : String) : String := String.mk (s.toList.map Char.toLower)

/-- Helper for `pySplitWS`. -/
def splitWSAux : List Char → List Char → List (List Char)
  | [], cur => if cur.isEmpty then [] else [cur.reverse]
  | c :: rest, cur =>
    if c.isWhitespace then
      if cur.isEmpty then splitWSAux rest [] else cur.reverse :: splitWSAux rest []
    else splitWSAux rest (c :: cur)

/-- Python `str.split()` with no argument: split on whitespace runs,
dropping empty pieces. -/
def pySplitWS (s : String) : List String :=
  (splitWSAux s.toList []).map String.mk

/-- Does `l` start with `p`?  (Python `str.startswith` on char lists.) -/
def listStartsWith [DecidableEq α] : List α → List α → Bool
  | _, [] => true
  | [], _ :: _ => false
  | a :: as, b :: bs => a = b && listStartsWith as bs

/-- Python `str.startswith`. -/
def pyStartsWith (s pre : String) : Bool := listStartsWith s.toList pre.toList

/-- Does `pat` occur as a contiguous run inside `hay`?
(Python substring test `pat in hay`.) -/
def containsSubL [DecidableEq α] : List α → List α → Bool
  | [], pat => pat.isEmpty
  | hay@(_ :: rest), pat => listStartsWith hay pat || containsSubL rest pat

/-- Python `pat in hay` for strings. -/
def containsSub (hay pat : String) : Bool := containsSubL hay.toList pat.toList

/-- Split a char list at every occurrence of `sep`
(Python `str.split(sep)`; keeps empty pieces). -/
def splitOnChar (sep : Char) : List Char → List (List Char)
  | [] => [[]]
  | c :: rest =>
    if c = sep then [] :: splitOnChar sep rest
    else
      match splitOnChar sep rest with
      | [] => [[c]]
      | g :: gs => (c :: g) :: gs

/-- Helper for `pySplitOnSub`: split at each leftmost non-overlapping
occurrence of `sep` (non-empty); `cur` is the reversed current piece and
`fuel` one larger than the input length is always enough. -/
def splitOnSubAux (sep : List Char) : Nat → List Char → List Char → List (List Char)
  | 0, l, cur => [cur.reverse ++ l]
  | fuel + 1, l, cur =>
    match l with
    | [] => [cur.reverse]
    | c :: rest =>
      if listStartsWith l sep then
        cur.reverse :: splitOnSubAux sep fuel (l.drop sep.length) []
      else
        splitOnSubAux sep fuel rest (c :: cur)

/-- Python `str.split(sep)` for a non-empty separator string. -/
def pySplitOnSub (s sep : String) : List String :=
  (splitOnSubAux sep.toList (s.length + 1) s.toList []).map String.mk

/-- Remove all trailing occurrences of `x` (Python `str.rstrip(x)` for a
single strip character). -/
def rstripChar (x : Char) (l : List Char) : List Char :=
  (l.reverse.dropWhile (fun c => c = x)).reverse

/-- Remove leading and trailing occurrences of `x` (Python `str.strip(x)`
for a single strip character). -/
def stripChar (x : Char) (l : List Char) : List Char :=
  rstripChar x (l.dropWhile (fun c => c = x))

/-- The decimal digit character for `n < 10`. -/
def digitChar (n : Nat) : Char := Char.ofNat (48 + n)

/-- Numeric value of a digit character. -/
def digitVal (c : Char) : Nat := c.toNat - 48

/-- Helper producing the decimal digit characters of `n` (most significant
first); `fuel` bounds the recursion and any `fuel > n` is enough. -/
def natCharsAux : Nat → Nat → List Char
  | 0, _ => []
  | fuel + 1, n =>
    if n < 10 then [digitChar n]
    else natCharsAux fuel (n / 10) ++ [digitChar (n % 10)]

/-- Decimal digit characters of a natural number (Python `str(n)`). -/
def natChars (n : Nat) : List Char := natCharsAux (n + 1) n

/-- Python `str(n)` for integers. -/
def intChars (n : Int) : List Char :=
  if n < 0 then '-' :: natChars n.natAbs else natChars n.toNat

/-- Value of a digit-character list read in base 10. -/
def charsVal (l : List Char) : Nat := l.foldl (fun a c => 10 * a + digitVal c) 0

/-- Python `str.capitalize()`: first character uppercased, the rest
lowercased. -/
def pyCapitalize (s : String) : String :=
  match s.toList with
  | [] => ""
  | c :: rest => String.mk (c.toUpper :: rest.map Char.toLower)

/-- Helper for `pyTitle`; `prevCased` tracks whether the previous character
was a letter. -/
def pyTitleAux (prevCased : Bool) : List Char → List Char
  | [] => []
  | c :: rest =>
    if c.isAlpha then
      (if prevCased then c.toLower else c.toUpper) :: pyTitleAux true rest
    else c :: pyTitleAux false rest

/-- Python `str.title()`: uppercase every letter that follows a non-letter,
lowercase the other letters. -/
def pyTitle (s : String) : String := String.mk (pyTitleAux false s.toList)

/-- Python `\w` word character (ASCII model): letter, digit or underscore. -/
def wordChar (c : Char) : Bool := c.isAlphanum || c = '_'

/-- Replace every `'_'` by `' '` (Python `name.replace('_', ' ')`). -/
def underscoreToSpace (s : String) : String :=
  String.mk (s.toList.map (fun c => if c = '_' then ' ' else c))

/-- Replace every `'_'` by `'-'` (Python `name.replace('_', '-')`). -/
def underscoreToHyphen (s : String) : String :=
  String.mk (s.toList.map (fun c => if c = '_' then '-' else c))

/-! ## Association-list dictionaries

Python `dict` objects with string keys are modelled as association lists in
insertion order with unique keys maintained by `dictSet`. -/

/-- First value stored under key `k` (Python `d.get(k)` / `d[k]`). -/
def dictGet (l : List (String × α)) (k : String) : Option α :=
  (l.find? (fun p => p.1 = k)).map Prod.snd

/-- Python `k in d`. -/
def dictHas (l : List (String × α)) (k : String) : Bool :=
  l.any (fun p => p.1 = k)

/-- Python `d[k] = v`: overwrite in place if the key exists, else append. -/
def dictSet (l : List (String × α)) (k : String) (v : α) : List (String × α) :=
  if dictHas l k then l.map (fun p => if p.1 = k then (k, v) else p)
  else l ++ [(k, v)]

/-- Python `d.update(new)`. -/
def dictUpdate (l new : List (String × α)) : List (String × α) :=
  new.foldl (fun acc p => dictSet acc p.1 p.2) l

/-- Store `v` under `k` only when `k` is absent — the merge guard
`if key not in extracted: extracted[key] = value` used by the slot
extractor. -/
def dictSetIfAbsent (l : List (String × α)) (k : String) (v : α) :
    List (String × α) :=
  if dictHas l k then l else dictSet l k v

/-! ## Field values

Per the data model, a field value is a string or a list of strings; `vNone`
models Python `None` (a `dict.get` miss stored back), `vInt` models numeric
JSON defaults.  This is the domain over which the Fill-State Classifier and
the Rule Validator operate. -/

inductive Value where
  | vNone : Value
  | vStr : String → Value
  | vInt : Int → Value
  | vList : List String → Value
deriving DecidableEq, Repr

/-- Python truthiness of a field value. -/
def pyTruthy : Value → Bool
  | .vNone => false
  | .vStr s => !decide (s = "")
  | .vInt n => !decide (n = 0)
  | .vList l => !l.isEmpty

/-- Python `repr` of a list of strings, as produced by `str(value)` on a
list value. -/
def pyReprStrList (l : List String) : String :=
  "[" ++ String.intercalate ", " (l.map (fun s => "\x27" ++ s ++ "\x27")) ++ "]"

/-- Python `str(value)`. -/
def pyStr : Value → String
  | .vNone => "None"
  | .vStr s => s
  | .vInt n => String.mk (intChars n)
  | .vList l => pyReprStrList l

/-! ## Fill-State Classifier (`_is_value_filled`) -/

/-- The pattern `^\[.*\]$` of `_is_value_filled`: an opening bracket, then
any characters none of which is a newline (the dot does not match a
newline), then a closing bracket. -/
def bracketWrapped (t : List Char) : Bool :=
  t.head? = some '[' && t.getLast? = some ']' && decide (2 ≤ t.length) &&
    (t.drop 1).dropLast.all (fun c => c ≠ '\n')

/-- The placeholder patterns of `_is_value_filled`, applied to the lowered,
stripped string form of the value:
`^\[.*\]$`, `^\.\.\.+$`, `^to be determined$`, `^tbd$`, `^n/?a$`. -/
def isPlaceholder (t : List Char) : Bool :=
  bracketWrapped t
  || (decide (3 ≤ t.length) && t.all (fun c => c = '.'))
  || decide (t = "to be determined".toList)
  || decide (t = "tbd".toList)
  || decide (t = "na".toList)
  || decide (t = "n/a".toList)

/-- `_is_value_filled`: decides whether a candidate value counts as
provided.  Lists are filled when some item is non-empty with non-blank
strip; other values are filled when their stripped string form is non-empty
and matches no placeholder pattern. -/
def isValueFilled (value : Value) : Bool :=
  if !pyTruthy value then false
  else
    match value with
    | .vList l =>
      decide (0 < l.length) &&
        l.any (fun item => !decide (item = "") && !decide (pyStrip item = ""))
    | v =>
      let s := pyStrip (pyStr v)
      if s = "" then false
      else !isPlaceholder (pyLower s).toList

/-- Spec-side predicate, written from the claim as stated (C2): a value is
NOT filled exactly when it is falsy, a string empty after trimming, an
empty list, or a placeholder string (bracket-wrapped, ellipsis-only,
"to be determined", "tbd", "n/a"/"na", case-insensitively). -/
def specUnfilledClaimed (v : Value) : Prop :=
  pyTruthy v = false ∨
  (∃ s, v = .vStr s ∧ pyStrip s = "") ∨
  v = .vList [] ∨
  (∃ s, v = .vStr s ∧
    (let t := (pyLower (pyStrip s)).toList
     (∃ mid, t = '[' :: mid ++ [']']) ∨
     (3 ≤ t.length ∧ ∀ c ∈ t, c = '.') ∨
     t = "to be determined".toList ∨ t = "tbd".toList ∨
     t = "na".toList ∨ t = "n/a".toList))

/-- Spec-side predicate for the amended claim (C2): as claimed, except that
a list counts as unfilled exactly when all of its items are blank after
trimming (not only when it is empty), and the bracket-wrapped placeholder
pattern only covers single-line text. -/
def specUnfilledAmended (v : Value) : Prop :=
  pyTruthy v = false ∨
  (∃ s, v = .vStr s ∧ pyStrip s = "") ∨
  (∃ l, v = .vList l ∧ ∀ item ∈ l, pyStrip item = "") ∨
  (∃ s, v = .vStr s ∧
    (let t := (pyLower (pyStrip s)).toList
     (∃ mid, t = '[' :: mid ++ [']'] ∧ '\n' ∉ mid) ∨
     (3 ≤ t.length ∧ ∀ c ∈ t, c = '.') ∨
     t = "to be determined".toList ∨ t = "tbd".toList ∨
     t = "na".toList ∨ t = "n/a".toList))

/-! ## Intent Classifier (`_detect_intent_c1`, `_detect_contract_type`,
`_is_in_scope`) -/

inductive Intent where
  | GREETING
  | ANALYZE_CONTRACT
  | CREATE_CONTRACT
  | QUESTION
  | PROVIDING_INFO
  | OUT_OF_SCOPE
  | UNKNOWN
deriving DecidableEq, Repr

structure IntentResult where
  intent : Intent
  contractType : Option String
  confidence : ℚ
deriving DecidableEq, Repr

/-- `self.contract_keywords` (a Python set; order is irrelevant to the
`any` membership test that consumes it). -/
def contractKeywords : List String :=
  ["contract", "agreement", "lease", "rent", "employment", "job",
   "partnership", "business", "buy", "sell", "labor", "worker",
   "salary", "wage", "clause", "party", "parties", "term",
   "generate", "create", "analyze", "review", "legal", "law",
   "what", "how", "when", "maximum", "minimum", "ground", "requirement"]

/-- `_is_in_scope`: the message mentions some contract keyword. -/
def isInScope (message : String) : Bool :=
  contractKeywords.any (fun kw => containsSub (pyLower message) kw)

/-- Match `pat` at the head of `hay` with a word boundary after it
(the pattern text itself begins and ends with word characters). -/
def hasWordAt (hay pat : List Char) : Bool :=
  listStartsWith hay pat &&
    (match hay.drop pat.length with
     | [] => true
     | c :: _ => !wordChar c)

/-- Scan for a `\b pat \b` occurrence; `prevWord` says whether the
character before the current position is a word character. -/
def containsWordAux (pat : List Char) : Bool → List Char → Bool
  | _, [] => false
  | prevWord, hay@(c :: rest) =>
    (!prevWord && hasWordAt hay pat) || containsWordAux pat (wordChar c) rest

/-- `re.search(r'\b…\b', msg)` for a literal keyword `pat`. -/
def containsWordB (hay pat : String) : Bool :=
  containsWordAux pat.toList false hay.toList

/-- `type_patterns` of `_detect_contract_type`, in source (insertion)
order; each regex `\bkw\b` is represented by its keyword text. -/
def typePatterns : List (String × List String) :=
  [("EMPLOYMENT", ["employment", "employee", "job", "hire", "work",
                   "worker", "labor", "labour"]),
   ("PARTNERSHIP", ["partnership", "partner", "business partner",
                    "joint venture"]),
   ("LEASE", ["lease", "rent", "rental", "property", "lessor", "lessee"]),
   ("BUY_SELL", ["buy", "sell", "purchase", "sale", "buyer", "seller"])]

/-- `_detect_contract_type`: first category (in `typePatterns` order) with
a whole-word keyword match in the lowered message. -/
def detectContractType (message : String) : Option String :=
  let msg := pyLower message
  (typePatterns.find? (fun tp => tp.2.any (fun p => containsWordB msg p))).map
    Prod.fst

def greetingWords : List String :=
  ["hello", "hi", "hey", "good morning", "good afternoon", "good evening"]

def analysisPatterns : List String :=
  ["analyze this contract", "analyze contract", "review this contract",
   "check this contract", "examine this contract", "look at this contract"]

def generationPatterns : List String :=
  ["create", "generate", "make", "need", "want",
   "draft", "get", "prepare", "build", "write"]

def contractWords : List String :=
  ["contract", "agreement", "lease", "employment", "partnership"]

def questionWords : List String :=
  ["what", "how", "when", "where", "why", "can", "is", "are",
   "maximum", "minimum", "law", "ground", "requirement", "tell me"]

/-- The guard of the GREETING branch: the stripped lowered message starts
with a greeting token, and the message has at most two whitespace-separated
words.  (In the source the word-count test is nested inside the
starts-with test, with a fall-through to the remaining branches when it
fails; the conjunction is equivalent because the nested test has no other
effect.) -/
def greetingHit (msg : String) : Bool :=
  greetingWords.any (fun w => pyStartsWith (pyStrip msg) w) &&
    decide ((pySplitWS msg).length ≤ 2)

/-- The guard of the ANALYZE_CONTRACT branch. -/
def analysisHit (msg : String) : Bool :=
  analysisPatterns.any (fun p => containsSub msg p)

/-- The guard of the QUESTION branch (shape only; the in-scope test is a
separate conjunct in the source). -/
def questionShape (msg : String) : Bool :=
  questionWords.any (fun q => pyStartsWith (pyStrip msg) q) ||
    containsSub msg "?"

/-- `_detect_intent_c1`: priority cascade over the lowered message.
In the source the QUESTION branch returns only when the message is also in
scope, and otherwise falls through to the OUT_OF_SCOPE test; flattening
that nesting into `questionShape msg && isInScope message` is equivalent
because a question-shaped out-of-scope message reaches OUT_OF_SCOPE either
way. -/
def detectIntentC1 (message : String) : IntentResult :=
  let msg := pyLower message
  if greetingHit msg then
    ⟨.GREETING, none, 1⟩
  else if analysisHit msg then
    ⟨.ANALYZE_CONTRACT, none, 1⟩
  else
    let contractType := detectContractType message
    let hasGenerationWord := generationPatterns.any (fun kw => containsSub msg kw)
    let hasContractWord := contractWords.any (fun kw => containsSub msg kw)
    if hasGenerationWord && (hasContractWord || contractType.isSome) then
      ⟨.CREATE_CONTRACT, contractType, 1⟩
    else if contractType.isSome && hasContractWord then
      ⟨.CREATE_CONTRACT, contractType, 9/10⟩
    else if questionShape msg && isInScope message then
      ⟨.QUESTION, none, 9/10⟩
    else if !isInScope message then
      ⟨.OUT_OF_SCOPE, none, 1⟩
    else
      ⟨.PROVIDING_INFO, none, 1/2⟩

/-! ## Slot Extractor (`_extract_partner_names`, `_regex_extraction`,
`_spacy_extraction`, `_extract_entities_c3`)

The regular expressions of the extractor share the shape
`PREFIX \s* SEP \s* ([^,\n]+?) (TAIL)` with a lazy capture group.  They are
implemented by the scanners below: `lazyCaptureAux` grows the group one
character at a time, trying the tail after each character exactly as the
lazy `+?` does, and `wsThenLazy` implements the greedy `\s*` before the
group, giving whitespace back to the group one character at a time when the
group cannot otherwise start — the backtracking order of the regex
engine. -/

/-- Consume a literal at the head of the input. -/
def dropLit (lit l : List Char) : Option (List Char) :=
  if listStartsWith l lit then some (l.drop lit.length) else none

/-- Consume a literal at the head of the input, ignoring case. -/
def dropLitCI (lit l : List Char) : Option (List Char) :=
  if listStartsWith (l.take lit.length |>.map Char.toLower) (lit.map Char.toLower) &&
      decide (lit.length ≤ l.length) then
    some (l.drop lit.length)
  else none

/-- Consume `\s*` greedily in a position where the next pattern element
cannot match whitespace. -/
def dropWS (l : List Char) : List Char := l.dropWhile Char.isWhitespace

/-- `([^stop]+?)(tail)`: grow the group lazily, trying the tail matcher
after every character.  `acc` is the reversed group collected so far. -/
def lazyCaptureAux (stop : Char → Bool) (tailM : List Char → Option Nat) :
    List Char → List Char → Option (List Char × List Char)
  | acc, [] =>
    match tailM [] with
    | some _ => some (acc.reverse, [])
    | none => none
  | acc, rest@(c :: rest2) =>
    match tailM rest with
    | some k => some (acc.reverse, rest.drop k)
    | none => if stop c then none else lazyCaptureAux stop tailM (c :: acc) rest2

/-- `([^stop]+?)(tail)` at the current position (the group needs at least
one character). -/
def lazyCapture (stop : Char → Bool) (tailM : List Char → Option Nat)
    (l : List Char) : Option (List Char × List Char) :=
  match l with
  | [] => none
  | c :: rest => if stop c then none else lazyCaptureAux stop tailM [c] rest

/-- Backtracking part of `wsThenLazy`: retry with one more whitespace
character prepended to the group region each time the capture fails. -/
def wsBackoff (stop : Char → Bool) (tailM : List Char → Option Nat) :
    List Char → List Char → Option (List Char × List Char)
  | [], cur => lazyCapture stop tailM cur
  | w :: wsRev2, cur =>
    match lazyCapture stop tailM cur with
    | some r => some r
    | none => wsBackoff stop tailM wsRev2 (w :: cur)

/-- `\s*([^stop]+?)(tail)` with the greedy-then-backtrack behaviour of
`\s*`. -/
def wsThenLazy (stop : Char → Bool) (tailM : List Char → Option Nat)
    (l : List Char) : Option (List Char × List Char) :=
  wsBackoff stop tailM (l.takeWhile Char.isWhitespace).reverse
    (l.dropWhile Char.isWhitespace)

/-- Group characters excluded by `[^,\n]`. -/
def stopCommaNL (c : Char) : Bool := c = ',' || c = '\n'

/-- Tail `(?:,|\n|$)` of the partner-names pattern: alternatives in source
order, returning how many characters the tail consumes. -/
def tailCommaNLEnd : List Char → Option Nat
  | [] => some 0
  | c :: _ => if c = ',' || c = '\n' then some 1 else none

/-- Tail `(?:,|\.|\n|$)` of the generic field pattern. -/
def tailCommaDotNLEnd : List Char → Option Nat
  | [] => some 0
  | c :: _ => if c = ',' || c = '.' || c = '\n' then some 1 else none

/-- Tail `(?:,|partner|\n|$)` of the repeated-partner pattern
(`partner` compared ignoring case). -/
def tailPartner : List Char → Option Nat
  | [] => some 0
  | l@(c :: _) =>
    if c = ',' then some 1
    else if (dropLitCI "partner".toList l).isSome then some 7
    else if c = '\n' then some 1
    else none

/-- Match `partner\s*names?\s*:\s*([^,\n]+?)(?:,|\n|$)` at the current
position of the (already lowered) message; returns the captured group. -/
def matchPartnerNamesAt (l : List Char) : Option (List Char × List Char) :=
  match dropLit "partner".toList l with
  | none => none
  | some r1 =>
    match dropLit "name".toList (dropWS r1) with
    | none => none
    | some r2 =>
      let tryRest := fun (r : List Char) =>
        match dropLit [':'] (dropWS r) with
        | none => none
        | some r3 => wsThenLazy stopCommaNL tailCommaNLEnd r3
      match r2 with
      | 's' :: rs => (tryRest rs).orElse (fun _ => tryRest r2)
      | _ => tryRest r2

/-- `re.search` for the partner-names pattern: leftmost match. -/
def searchPartnerNames : List Char → Option (List Char)
  | [] => none
  | l@(_ :: rest) =>
    match matchPartnerNamesAt l with
    | some (g, _) => some g
    | none => searchPartnerNames rest

/-- Match `partner\s*[a-z]?\s*:\s*([^,\n]+?)(?:,|partner|\n|$)` at the
current position, ignoring case (Pattern 2 of `_extract_partner_names`);
returns the group and the input after the consumed match. -/
def matchPartnerLetterAt (l : List Char) : Option (List Char × List Char) :=
  match dropLitCI "partner".toList l with
  | none => none
  | some r1 =>
    let tryRest := fun (r : List Char) =>
      match dropLit [':'] (dropWS r) with
      | none => none
      | some r3 => wsThenLazy stopCommaNL tailPartner r3
    let r2 := dropWS r1
    match r2 with
    | c :: rs =>
      if c.isAlpha then (tryRest rs).orElse (fun _ => tryRest r2) else tryRest r2
    | [] => tryRest r2

/-- `re.findall` for Pattern 2: non-overlapping matches, scanning left to
right and resuming after each consumed match.  Every match consumes at
least one character, so `fuel` one larger than the input length is always
enough. -/
def findAllPartnerLetter : Nat → List Char → List (List Char)
  | 0, _ => []
  | _ + 1, [] => []
  | fuel + 1, l@(_ :: rest) =>
    match matchPartnerLetterAt l with
    | some (g, after) => g :: findAllPartnerLetter fuel after
    | none => findAllPartnerLetter fuel rest

/-- `_extract_partner_names`: the PARTNERSHIP pre-pass parsing multi-party
name lists. -/
def extractPartnerNames (message : String) : List String :=
  let msgLower := pyLower message
  let partners₁ : List String :=
    match searchPartnerNames msgLower.toList with
    | some g =>
      let namesStr := pyStrip (String.mk g)
      if containsSub namesStr " and " then
        (pySplitOnSub namesStr " and ").map (fun n => pyTitle (pyStrip n))
      else if containsSub namesStr "," then
        (pySplitOnSub namesStr ",").map (fun n => pyTitle (pyStrip n))
      else [pyTitle (pyStrip namesStr)]
    | none => []
  let found := findAllPartnerLetter (message.length + 1) message.toList
  if !found.isEmpty && partners₁.isEmpty then
    found.map (fun m => pyTitle (pyStrip (String.mk m)))
  else partners₁

/-- Group-value cleanup of `_regex_extraction`: strip, strip bullets,
drop a `php`/`usd` currency prefix, and word-capitalize name fields. -/
def cleanupFieldValue (field : String) (g : List Char) : String :=
  let v1 := pyStrip (String.mk g)
  let v2 := pyStrip (String.mk (stripChar '•' v1.toList))
  let v3 :=
    if listStartsWith v2.toList "php".toList || listStartsWith v2.toList "usd".toList then
      String.mk (dropWS (v2.toList.drop 3))
    else v2
  if containsSub field "name" then
    String.intercalate " " ((pySplitWS v3).map pyCapitalize)
  else v3

/-- Match `variant\s*[:\-]\s*([^,\n]+?)(?:,|\.|\n|$)` at the current
position of the lowered message. -/
def matchFieldAt (variant l : List Char) : Option (List Char) :=
  match dropLit variant l with
  | none => none
  | some r1 =>
    match dropWS r1 with
    | c :: r3 =>
      if c = ':' || c = '-' then
        (wsThenLazy stopCommaNL tailCommaDotNLEnd r3).map Prod.fst
      else none
    | [] => none

/-- `re.search` for the generic field pattern. -/
def searchField (variant : List Char) : List Char → Option (List Char)
  | [] => none
  | l@(_ :: rest) =>
    (matchFieldAt variant l).orElse (fun _ => searchField variant rest)

/-- `_regex_extraction`: for each schema field, try the underscore, space
and hyphen variants of a `field : value` pattern; the first variant that
matches wins. -/
def regexExtraction (message : String) (requiredFields : List String) :
    List (String × Value) :=
  let msgLower := (pyLower message).toList
  requiredFields.foldl
    (fun acc field =>
      let variants := [field, underscoreToSpace field, underscoreToHyphen field]
      match (variants.filterMap
          (fun v => (searchField v.toList msgLower).map
            (fun g => cleanupFieldValue field g))).head? with
      | some value => dictSet acc field (Value.vStr value)
      | none => acc)
    []

/-- `_spacy_extraction`, with the tagger entities `(label, text)` passed in
(the tagging model is an external collaborator): PERSON entities fill
name-like fields, MONEY entities (digits only) money-like fields, DATE
entities date-like fields, in entity order, first unfilled field first. -/
def spacyExtraction (ents : List (String × String))
    (requiredFields : List String) : List (String × Value) :=
  let nameFields := requiredFields.filter (fun f => containsSub f "name")
  let moneyFields := requiredFields.filter
    (fun f => containsSub f "salary" || containsSub f "rent" ||
      containsSub f "price" || containsSub f "amount")
  let dateFields := requiredFields.filter (fun f => containsSub f "date")
  ents.foldl
    (fun acc ent =>
      if ent.1 = "PERSON" && !nameFields.isEmpty then
        match nameFields.find? (fun f => !dictHas acc f) with
        | some f => dictSet acc f (Value.vStr ent.2)
        | none => acc
      else if ent.1 = "MONEY" && !moneyFields.isEmpty then
        let amount := String.mk (ent.2.toList.filter Char.isDigit)
        match moneyFields.find? (fun f => !dictHas acc f) with
        | some f => dictSet acc f (Value.vStr amount)
        | none => acc
      else if ent.1 = "DATE" && !dateFields.isEmpty then
        match dateFields.find? (fun f => !dictHas acc f) with
        | some f => dictSet acc f (Value.vStr ent.2)
        | none => acc
      else acc)
    []

/-- The static schema fallback table of `_get_required_fields` (the primary
strategy introspects the renderer source through `importlib`/`inspect`,
an external reflection facility; the resolved field list is therefore a
parameter of the functions below, and this table provides the concrete
schemas used in witnesses). -/
def fallbackRequiredFields : List (String × List String) :=
  [("EMPLOYMENT",
    ["employer_name", "employee_name", "position", "salary", "start_date",
     "employment_type", "work_hours", "benefits"]),
   ("PARTNERSHIP",
    ["partner_names", "business_name", "partnership_type",
     "capital_contribution", "profit_sharing_ratio", "business_address"]),
   ("LEASE",
    ["lessor_name", "lessee_name", "property_address", "rental_amount",
     "lease_period", "payment_terms", "property_use"]),
   ("BUY_SELL",
    ["seller_name", "buyer_name", "item_description", "purchase_price",
     "payment_terms", "delivery_terms", "delivery_date"])]

/-- `_extract_entities_c3`: the PARTNERSHIP pre-pass runs first, then the
three generic strategies in priority order, each only filling fields that
are still absent.  The completion-service extraction result
(`_llm_extraction`) and the tagger entities are parameters because both
come from external collaborators; the schema field list is a parameter
because `_get_required_fields` resolves it by source introspection. -/
def extractEntitiesC3 (llmAvailable : Bool)
    (llmExtracted : List (String × Value))
    (spacyAvailable : Bool) (spacyEnts : List (String × String))
    (requiredFields : List String)
    (message : String) (contractType : String) : List (String × Value) :=
  let extracted : List (String × Value) := []
  let extracted :=
    if contractType = "PARTNERSHIP" && requiredFields.any (fun f => f = "partner_names") then
      let partners := extractPartnerNames message
      if !partners.isEmpty then dictSet extracted "partner_names" (.vList partners)
      else extracted
    else extracted
  let extracted :=
    if llmAvailable then
      llmExtracted.foldl (fun acc p => dictSetIfAbsent acc p.1 p.2) extracted
    else extracted
  let extracted :=
    (regexExtraction message requiredFields).foldl
      (fun acc p => dictSetIfAbsent acc p.1 p.2) extracted
  if spacyAvailable then
    (spacyExtraction spacyEnts requiredFields).foldl
      (fun acc p => dictSetIfAbsent acc p.1 p.2) extracted
  else extracted

/-! ## Value Normalizer (`_format_contract_inputs` and helpers)

`_format_money` strips currency characters, reparses with Python `float`,
and re-renders with `f"{amount:,.2f}".rstrip('0').rstrip('.')`.  The parse
and the two-decimal rounding are modelled in exact decimal arithmetic:
after the character filter only digits and dots remain, and the format
rounds to cents half-to-even.  (CPython routes the value through a binary
double; exact decimal agrees with that on every money string whose value
has at most two fractional digits, which covers normalized values and all
inputs the claims are about.) -/

/-- Characters kept by `re.sub(r'[^\d,.]', '', value)`. -/
def moneyChar (c : Char) : Bool := c.isDigit || c = ',' || c = '.'

/-- Python `float()` on a string of digits and dots: integer part and the
fractional digit values.  Rejects the empty string, a lone dot and
multiple dots, as `float` does. -/
def parseMoneyChars (cs : List Char) : Option (Nat × List Nat) :=
  if cs.isEmpty then none
  else
    match splitOnChar '.' cs with
    | [ds] => some (charsVal ds, [])
    | [as, bs] =>
      if as.isEmpty && bs.isEmpty then none
      else some (charsVal as, bs.map digitVal)
    | _ => none

/-- Round `ip . frac` to whole cents, half to even. -/
def roundCents (ip : Nat) (frac : List Nat) : Nat :=
  let base := ip * 100 + 10 * frac.headD 0 + (frac.drop 1).headD 0
  let rest := frac.drop 2
  if rest.all (fun d => d = 0) then base
  else if 5 < rest.headD 0 then base + 1
  else if rest.headD 0 < 5 then base
  else if (rest.drop 1).all (fun d => d = 0) then
    if base % 2 = 0 then base else base + 1
  else base + 1

/-- Insert a comma after every third digit, working on the reversed digit
list (the thousands grouping of `f"{amount:,.2f}"`). -/
def group3Rev : List Char → List Char
  | [] => []
  | [a] => [a]
  | [a, b] => [a, b]
  | [a, b, c] => [a, b, c]
  | a :: b :: c :: rest => a :: b :: c :: ',' :: group3Rev rest

/-- Thousands-grouped digit characters. -/
def group3 (ds : List Char) : List Char := (group3Rev ds.reverse).reverse

/-- `f"{amount:,.2f}".rstrip('0').rstrip('.')` at `cents` hundredths. -/
def renderMoney (cents : Nat) : String :=
  let body := group3 (natChars (cents / 100)) ++
    ['.', digitChar (cents % 100 / 10), digitChar (cents % 10)]
  String.mk (rstripChar '.' (rstripChar '0' body))

/-- `_format_money`: strip currency symbols/letters and separators,
reparse, re-render with thousands separators and at most two decimals,
trimming trailing zero decimals; return the input unchanged when the parse
fails. -/
def formatMoney (value : String) : String :=
  let clean := value.toList.filter moneyChar
  let clean2 := clean.filter (fun c => c ≠ ',')
  match parseMoneyChars clean2 with
  | none => value
  | some (ip, frac) => renderMoney (roundCents ip frac)

/-- Name particles kept lowercase by `_format_name` (with `jr`/`sr`
uppercased and suffixed with a dot). -/
def nameParticles : List String :=
  ["de", "del", "dela", "delos", "las", "los", "san", "jr", "sr",
   "ii", "iii", "iv"]

/-- `_format_name`. -/
def formatName (name : String) : String :=
  let words := pySplitWS name
  let formatted := words.map (fun word =>
    if nameParticles.any (fun p => p = pyLower word) then
      if pyLower word = "jr" || pyLower word = "sr" then
        String.mk (word.toList.map Char.toUpper) ++ "."
      else pyLower word
    else pyCapitalize word)
  String.intercalate " " formatted

/-- Minor words kept lowercase by `_format_address` except in first
position. -/
def addressSmallWords : List String := ["of", "and", "the", "in", "at", "to"]

/-- `_format_address`. -/
def formatAddress (address : String) : String :=
  let words := pySplitWS address
  let formatted := words.enum.map (fun wi =>
    if wi.1 = 0 then pyCapitalize wi.2
    else if addressSmallWords.any (fun p => p = pyLower wi.2) then pyLower wi.2
    else pyCapitalize wi.2)
  String.intercalate " " formatted

/-- Month names recapitalized by `_format_date`. -/
def monthNames : List String :=
  ["january", "february", "march", "april", "may", "june", "july",
   "august", "september", "october", "november", "december"]

/-- Scan for a `\b pat \b` occurrence ignoring case, replacing it with
`rep`; `prevWord` tracks whether the previous character is a word
character (implements `re.sub(rf'\b{pat}\b', rep, s, flags=IGNORECASE)`
for a literal word `pat`).  The scan advances at least one character per
step, so `fuel` one larger than the input length is always enough. -/
def replaceWordCIAux (pat rep : List Char) : Nat → Bool → List Char → List Char
  | 0, _, l => l
  | _ + 1, _, [] => []
  | fuel + 1, prevWord, l@(c :: rest) =>
    if !prevWord && (dropLitCI pat l).isSome &&
        (match l.drop pat.length with
         | [] => true
         | d :: _ => !wordChar d) then
      rep ++ replaceWordCIAux pat rep fuel
        (match pat.getLast? with
         | some r => wordChar r
         | none => prevWord) (l.drop pat.length)
    else c :: replaceWordCIAux pat rep fuel (wordChar c) rest

/-- Replace every whole-word occurrence of `pat` (ignoring case) by
`rep`. -/
def replaceWordCI (s pat rep : String) : String :=
  String.mk (replaceWordCIAux pat.toList rep.toList (s.length + 1) false s.toList)

/-- Test for the already-well-formed date shape
`^[A-Z][a-z]+ \d{1,2}, \d{4}$`. -/
def wellFormedDate (cs : List Char) : Bool :=
  match cs with
  | c :: rest =>
    ('A' ≤ c && c ≤ 'Z') &&
    (let lows := rest.takeWhile (fun d => 'a' ≤ d && d ≤ 'z')
     let r1 := rest.drop lows.length
     !lows.isEmpty &&
     (match r1 with
      | ' ' :: r2 =>
        let digs := r2.takeWhile Char.isDigit
        let r3 := r2.drop digs.length
        (decide (1 ≤ digs.length) && decide (digs.length ≤ 2)) &&
        (match r3 with
         | ',' :: ' ' :: r4 => r4.length = 4 && r4.all Char.isDigit
         | _ => false)
      | _ => false))
  | [] => false

/-- `_format_date`: keep a well-formed `Month DD, YYYY` untouched,
otherwise re-capitalize month names. -/
def formatDate (dateStr : String) : String :=
  let d := pyStrip dateStr
  if wellFormedDate d.toList then d
  else monthNames.foldl (fun acc m => replaceWordCI acc m (pyCapitalize m)) d

/-- `re.sub(r'(\w)\1{2,}', r'\1', s)`: collapse every run of three or more
equal word characters to a single one; `fuel` one larger than the input
length is always enough. -/
def collapseRunsAux : Nat → List Char → List Char
  | 0, l => l
  | _ + 1, [] => []
  | fuel + 1, c :: rest =>
    if wordChar c then
      let run := rest.takeWhile (fun d => d = c)
      if 2 ≤ run.length then c :: collapseRunsAux fuel (rest.drop run.length)
      else c :: collapseRunsAux fuel rest
    else c :: collapseRunsAux fuel rest

/-- Collapse repeated-character typo runs. -/
def collapseRuns (l : List Char) : List Char := collapseRunsAux (l.length + 1) l

/-- Time-unit words recapitalized by `_format_duration`. -/
def timeUnits : List String :=
  ["year", "years", "month", "months", "day", "days", "week", "weeks"]

/-- `_format_duration`: collapse typo runs, then recapitalize unit
words. -/
def formatDuration (duration : String) : String :=
  let d := String.mk (collapseRuns duration.toList)
  pyStrip (timeUnits.foldl (fun acc u => replaceWordCI acc u (pyCapitalize u)) d)

/-- `_format_description`: uppercase the first character only. -/
def formatDescription (desc : String) : String :=
  let d := pyStrip desc
  match d.toList with
  | [] => d
  | c :: rest => String.mk (c.toUpper :: rest)

/-- `_format_title`: capitalize every word. -/
def formatTitleField (title : String) : String :=
  String.intercalate " " ((pySplitWS title).map pyCapitalize)

/-- `re.sub(r'([.,!?])\1+', r'\1', s)`: collapse repeated punctuation;
`fuel` one larger than the input length is always enough. -/
def collapsePunctAux : Nat → List Char → List Char
  | 0, l => l
  | _ + 1, [] => []
  | fuel + 1, c :: rest =>
    if c = '.' || c = ',' || c = '!' || c = '?' then
      c :: collapsePunctAux fuel (rest.dropWhile (fun d => d = c))
    else c :: collapsePunctAux fuel rest

/-- Collapse repeated punctuation. -/
def collapsePunct (l : List Char) : List Char := collapsePunctAux (l.length + 1) l

/-- `_basic_cleanup`. -/
def basicCleanup (value : String) : String :=
  let v := String.intercalate " " (pySplitWS value)
  pyStrip (String.mk (collapsePunct v.toList))

/-- One quoted string item; returns the item and the input after the
closing quote.  Part of the restricted model of `ast.literal_eval` on a
bracketed string: `_format_contract_inputs` only feeds it the string form
of a `partner_names` list, so only list-of-string literals are parsed and
anything else counts as the parse failure the source catches. -/
def parseQuoted (q : Char) : List Char → Option (String × List Char)
  | [] => none
  | c :: rest =>
    if c = q then some ("", rest)
    else
      match parseQuoted q rest with
      | some (s, r) => some (String.mk (c :: s.toList), r)
      | none => none

/-- Items of a list literal after the opening bracket. -/
def parseListItems : Nat → List Char → Option (List String)
  | 0, _ => none
  | fuel + 1, l =>
    match dropWS l with
    | ']' :: rest => if (dropWS rest).isEmpty then some [] else none
    | q :: rest =>
      if q = '\x27' || q = '"' then
        match parseQuoted q rest with
        | some (s, r) =>
          match dropWS r with
          | ',' :: r2 =>
            (parseListItems fuel r2).map (fun items => s :: items)
          | ']' :: r2 => if (dropWS r2).isEmpty then some [s] else none
          | _ => none
        | none => none
      else none
    | [] => none

/-- Model of `ast.literal_eval` restricted to list-of-string literals. -/
def parsePyStrList (s : String) : Option (List String) :=
  match (pyStrip s).toList with
  | '[' :: rest => parseListItems (s.length + 1) rest
  | _ => none

/-- The `partner_names` branch of `_format_contract_inputs`: keep the value
a list, resurrecting a stringified list when needed; a value that is
neither a list nor a string is skipped (`none`). -/
def formatPartnerNamesValue (v : Value) : Option Value :=
  match v with
  | .vList l => some (.vList (l.map formatName))
  | .vStr s =>
    if pyStartsWith s "[" && s.endsWith "]" then
      match parsePyStrList s with
      | some parsed => some (.vList (parsed.map formatName))
      | none => some (.vList [formatName s])
    else some (.vList [formatName s])
  | _ => none

/-- Values skipped outright by `_format_contract_inputs`
(`value in ['[', ']', 'N/A', 'null', 'None']`). -/
def skipSentinels : List String := ["[", "]", "N/A", "null", "None"]

/-- Field-name heuristic dispatch of `_format_contract_inputs`, applied to
the string form of a value. -/
def formatFieldValue (field : String) (s : String) : String :=
  let fLow := pyLower field
  if containsSub fLow "name" then formatName s
  else if containsSub fLow "address" then formatAddress s
  else if ["salary", "price", "rent", "amount", "deposit", "fee"].any
      (fun w => containsSub fLow w) then formatMoney s
  else if containsSub fLow "date" then formatDate s
  else if ["duration", "period", "term"].any (fun w => containsSub fLow w) then
    formatDuration s
  else if containsSub fLow "description" then formatDescription s
  else if containsSub fLow "position" || containsSub fLow "title" then
    formatTitleField s
  else basicCleanup s

/-- `_format_contract_inputs`: normalize every collected field before
rendering.  Non-string scalar values reach the per-field formatters as
their Python string form, as the `str(...)` coercions in the source do. -/
def formatContractInputs (details : List (String × Value)) :
    List (String × Value) :=
  details.foldl
    (fun acc p =>
      if !pyTruthy p.2 || skipSentinels.any (fun t => Value.vStr t = p.2) then acc
      else if p.1 = "partner_names" then
        match formatPartnerNamesValue p.2 with
        | some v => dictSet acc p.1 v
        | none => acc
      else
        dictSet acc p.1 (.vStr (formatFieldValue p.1 (pyStr p.2))))
    []

/-! ## Rule Validator (`_validate_against_law_c4`)

The Philippine-law rule data is an external data source (JSON files loaded
at startup); its shape is modelled by `ClauseRule` / `LawConstraint` /
`Laws` and passed in as the `phLaws` table.  Numeric constraint limits are
modelled as integers (their JSON values) and parsed field values in exact
decimal arithmetic. -/

structure ClauseRule where
  name : String
  mandatory : Bool
  default : Option String
deriving DecidableEq, Repr

structure LawConstraint where
  min : Option Int
  max : Option Int
deriving DecidableEq, Repr

structure Laws where
  requiredClauses : List ClauseRule
  constraints : List (String × LawConstraint)
deriving DecidableEq, Repr

structure Validation where
  valid : Bool
  warnings : List String
  errors : List String
  appliedDefaults : List String
deriving DecidableEq, Repr

/-- The error text recorded for a missing mandatory clause field. -/
def missingErrStr (name : String) : String :=
  "Missing required: " ++ pyTitle (underscoreToSpace name)

/-- The note recorded when a declared default is applied. -/
def appliedDefaultStr (name default : String) : String :=
  pyTitle (underscoreToSpace name) ++ ": " ++ default

/-- The validator trigger `clause_name not in details or not
details[clause_name]`: the field is absent or holds a falsy value. -/
def clauseUnfilled (details : List (String × Value)) (name : String) : Bool :=
  match dictGet details name with
  | none => true
  | some val => !pyTruthy val

/-- One required-clause rule step: apply the declared default when the
field is missing or falsy, else record a blocking error when the rule is
mandatory with no default. -/
def clauseStep (acc : Validation × List (String × Value)) (clause : ClauseRule) :
    Validation × List (String × Value) :=
  let (v, details) := acc
  if clauseUnfilled details clause.name then
    match clause.default with
    | some d =>
      ({ v with appliedDefaults := v.appliedDefaults ++ [appliedDefaultStr clause.name d] },
       dictSet details clause.name (.vStr d))
    | none =>
      if clause.mandatory then
        ({ v with errors := v.errors ++ [missingErrStr clause.name], valid := false },
         details)
      else acc
  else acc

/-- The required-clause pass of the validator. -/
def validateClauses (clauses : List ClauseRule) (v : Validation)
    (details : List (String × Value)) : Validation × List (String × Value) :=
  clauses.foldl clauseStep (v, details)

/-- Python `float(...)` restricted to plain decimal notation with an
optional sign (the validator strips thousands separators first; exponent
and special forms are out of scope of the law data).  Surrounding
whitespace is accepted as `float` does. -/
def parseDecQ (s : String) : Option ℚ :=
  let core := fun (cs : List Char) =>
    match splitOnChar '.' cs with
    | [ds] =>
      if !ds.isEmpty && ds.all Char.isDigit then some ((charsVal ds : ℚ)) else none
    | [as, bs] =>
      if (!as.isEmpty || !bs.isEmpty) && as.all Char.isDigit && bs.all Char.isDigit then
        some ((charsVal as : ℚ) + (charsVal bs : ℚ) / (10 : ℚ) ^ bs.length)
      else none
    | _ => none
  match (pyStrip s).toList with
  | '-' :: rest => (core rest).map Neg.neg
  | '+' :: rest => core rest
  | cs => core cs

/-- `float(value.replace(',', ''))` for a string value, `float(value)`
otherwise; `none` models the `ValueError`/`TypeError` silently swallowed
by the validator. -/
def pyFloatOfValue : Value → Option ℚ
  | .vStr s => parseDecQ (String.mk (s.toList.filter (fun c => c ≠ ',')))
  | .vInt n => some (n : ℚ)
  | _ => none

/-- One numeric-constraint step: blocking error below the minimum,
non-blocking warning above the maximum, parse failures ignored. -/
def constraintStep (details : List (String × Value)) (v : Validation)
    (entry : String × LawConstraint) : Validation :=
  let (field, c) := entry
  match dictGet details field with
  | none => v
  | some val =>
    if !pyTruthy val then v
    else if c.min.isSome || c.max.isSome then
      match pyFloatOfValue val with
      | none => v
      | some num =>
        let v1 := match c.min with
          | some m =>
            if num < (m : ℚ) then
              let msg := pyTitle (underscoreToSpace field) ++ ": Below minimum of " ++
                String.mk (intChars m)
              { v with errors := v.errors ++ [msg], valid := false }
            else v
          | none => v
        match c.max with
        | some m =>
          if (m : ℚ) < num then
            let msg := pyTitle (underscoreToSpace field) ++ ": Above maximum of " ++
              String.mk (intChars m)
            { v1 with warnings := v1.warnings ++ [msg] }
          else v1
        | none => v1
    else v

/-- `_validate_against_law_c4`: look up the law data for the category,
run the required-clause pass (mutating the details), then the
numeric-constraint pass. -/
def validateAgainstLawC4 (phLaws : List (String × Laws)) (contractType : String)
    (details : List (String × Value)) : Validation × List (String × Value) :=
  let v0 : Validation := ⟨true, [], [], []⟩
  match dictGet phLaws (pyLower contractType) with
  | none =>
    ({ v0 with warnings := ["No Philippine law file loaded for " ++ contractType] },
     details)
  | some laws =>
    let (v1, d1) := validateClauses laws.requiredClauses v0 details
    let v2 := laws.constraints.foldl (constraintStep d1) v1
    (v2, d1)

/-! ## Dialogue State Tracker update (`_update_state_c2`) -/

structure StateC2 where
  contractType : String
  filled : List String
  missing : List String
  details : List (String × Value)
  completion : ℚ
deriving Repr

/-- Is the field held filled in `details`?  (`value and
self._is_value_filled(value)`.) -/
def fieldFilled (details : List (String × Value)) (f : String) : Bool :=
  match dictGet details f with
  | some v => pyTruthy v && isValueFilled v
  | none => false

/-- `_update_state_c2`: merge the new extraction into the details and
partition the resolved schema into filled and missing fields.  The
resolved schema `required` is a parameter because `_get_required_fields`
derives it by renderer introspection (with `fallbackRequiredFields` as the
static fallback). -/
def updateStateC2 (required : List String) (contractType : String)
    (sessionDetails newData : List (String × Value)) : StateC2 :=
  let details := dictUpdate sessionDetails newData
  { contractType := contractType
    filled := required.filter (fun f => fieldFilled details f)
    missing := required.filter (fun f => !fieldFilled details f)
    details := details
    completion :=
      if required.isEmpty then 0
      else ((required.filter (fun f => fieldFilled details f)).length : ℚ) /
        (required.length : ℚ) }

/-! ## Special-clause cleanup (`_clean_generated_clause`)

Step 1 removes one anchored preamble (`^.*?PHRASE.*?…:\s*` with
IGNORECASE and DOTALL): the lazy pieces make the match run from the start
of the string through the first occurrence of the phrase, then to the
first following alternative-plus-colon, then greedily over whitespace.
Step 2 drops everything before the first title-looking line.  Step 3
deletes every line matching one of the MULTILINE disclaimer patterns
(`^.*?A.*?B.*?\n`; the dot does not cross newlines, so a match is exactly
one line containing `A` and then `B`, together with its newline). -/

/-- Input remaining after the first case-insensitive occurrence of
`pat`. -/
def findCISuffix (pat : List Char) : List Char → Option (List Char)
  | [] => if pat.isEmpty then some [] else none
  | l@(_ :: rest) =>
    match dropLitCI pat l with
    | some r => some r
    | none => findCISuffix pat rest

/-- Case-insensitive substring test. -/
def containsCISub (hay pat : List Char) : Bool :=
  containsSubL (hay.map Char.toLower) (pat.map Char.toLower)

/-- Try `(?:alt₁|…|altₙ):` at the current position (alternatives in
pattern order; an empty alternative encodes a plain `:`); returns the
input after the colon. -/
def tryAltsColonAt (alts : List (List Char)) (l : List Char) : Option (List Char) :=
  (alts.filterMap (fun a =>
    match dropLitCI a l with
    | some (':' :: r2) => some r2
    | _ => none)).head?

/-- Scan for the earliest position where an alternative plus colon
matches. -/
def findAltColon (alts : List (List Char)) : List Char → Option (List Char)
  | [] => none
  | l@(_ :: rest) =>
    match tryAltsColonAt alts l with
    | some r2 => some r2
    | none => findAltColon alts rest

/-- One preamble cutoff `^.*?phrase.*?(?:alts):\s*`: the text remaining
after the removed prefix, or `none` when the pattern does not match. -/
def cutPreamble (phrase : List Char) (alts : List (List Char))
    (clause : List Char) : Option (List Char) :=
  match findCISuffix phrase clause with
  | none => none
  | some afterPhrase =>
    match findAltColon alts afterPhrase with
    | none => none
    | some afterColon => some (dropWS afterColon)

/-- The `preamble_cutoffs` patterns: leading phrase and the alternatives
before the colon. -/
def preambleCutoffs : List (List Char × List (List Char)) :=
  [("I can\x27t provide legal advice".toList,
    ["clause".toList, "agreement".toList, "provision".toList]),
   ("Here\x27s a sample".toList,
    ["clause".toList, "agreement".toList, "provision".toList]),
   ("Here\x27s the".toList, [[]]),
   ("Below is".toList, [[]])]

/-- Step 1: the first cutoff pattern that matches (and hence shortens the
text) is applied; the rest are skipped. -/
def cutFirstPreamble (clause : List Char) : List Char :=
  match (preambleCutoffs.filterMap (fun pc => cutPreamble pc.1 pc.2 clause)).head? with
  | some cleaned => cleaned
  | none => clause

/-- Python `str.isupper()` (ASCII): at least one letter and no lowercase
letter. -/
def pyIsUpper (l : List Char) : Bool :=
  l.any Char.isAlpha && l.all (fun c => !c.isAlpha || c.isUpper)

/-- Suffix test. -/
def listEndsWith [DecidableEq α] (l suf : List α) : Bool :=
  listStartsWith l.reverse suf.reverse

/-- Does a stripped line look like a clause title?  All-caps text longer
than five characters, a `\d+\.` numbered start, or a line ending in
`AGREEMENT`/`CLAUSE`/`PROVISION`. -/
def isClauseTitle (ls : List Char) : Bool :=
  (!ls.isEmpty && pyIsUpper ls && decide (5 < ls.length)) ||
  (let ds := ls.takeWhile Char.isDigit
   !ds.isEmpty && (ls.drop ds.length).head? = some '.') ||
  (listEndsWith ls "AGREEMENT".toList || listEndsWith ls "CLAUSE".toList ||
    listEndsWith ls "PROVISION".toList)

/-- Join lines with newlines (inverse of `splitOnChar '\n'`). -/
def joinNL : List (List Char) → List Char
  | [] => []
  | [l] => l
  | l :: rest => l ++ '\n' :: joinNL rest

/-- Does the line contain `p1` followed (at or after its end) by `p2`,
ignoring case?  The earliest `p1` occurrence suffices: any later one ends
no earlier. -/
def lineHasSeq (p1 p2 : List Char) (line : List Char) : Bool :=
  match findCISuffix p1 line with
  | some suffix => containsCISub suffix p2
  | none => false

/-- One MULTILINE disclaimer substitution: delete every newline-terminated
line matching `^.*?p1.*?p2.*?\n`. -/
def removeMatchingLines (p1 p2 : List Char) (clause : List Char) : List Char :=
  let segs := splitOnChar '\n' clause
  let kept := segs.dropLast.filter (fun ln => !lineHasSeq p1 p2 ln)
  kept.foldr (fun ln acc => ln ++ '\n' :: acc) ((segs.getLast?).getD [])

/-- The `disclaimer_patterns` pairs. -/
def disclaimerPatterns : List (List Char × List Char) :=
  [("I can".toList, "advice".toList),
   ("sample".toList, "clause".toList),
   ("Please".toList, "note".toList),
   ("Disclaimer".toList, [])]

/-- `_clean_generated_clause`: strip preambles and disclaimers from
completion-service output, falling back to the stripped original whenever
cleaning leaves nothing (or fewer than 20 characters). -/
def cleanGeneratedClause (clause : String) : String :=
  let original := clause.toList
  let c1 := cutFirstPreamble original
  let lines := splitOnChar '\n' c1
  let idx := (lines.findIdx? (fun ln => isClauseTitle (stripWSL ln))).getD 0
  let c2 := if 0 < idx then joinNL (lines.drop idx) else c1
  let c3 := disclaimerPatterns.foldl
    (fun acc pp => removeMatchingLines pp.1 pp.2 acc) c2
  let c4 := stripWSL c3
  if c4.isEmpty || c4.length < 20 then String.mk (stripWSL original)
  else String.mk c4

/-! ## Sessions, responses and the message entry points

A session is the per-conversation mutable record owned by the tracker;
message timestamps are wall-clock values and are omitted from the model.
The response dictionaries returned by the agent are modelled by a record
holding the keys the embedded branches produce; the keys produced only by
the opaque collaborator handlers travel through those handlers unmodelled.
-/

structure Session where
  id : String
  messages : List (String × String)
  awaitingDetails : Bool
  awaitingSpecialClauses : Bool
  askedSpecialClauses : Bool
  contractType : Option String
  details : List (String × Value)
  specialClauses : List String
  filled : List String
  missing : List String
deriving DecidableEq, Repr

/-- The fresh session created by `_get_or_create_session`. -/
def freshSession (sessionId : String) : Session :=
  { id := sessionId
    messages := []
    awaitingDetails := false
    awaitingSpecialClauses := false
    askedSpecialClauses := false
    contractType := none
    details := []
    specialClauses := []
    filled := []
    missing := [] }

structure Response where
  response : String
  intent : Option Intent
  contractType : Option String
  analysis : Option String
  contractId : Option String
  filePath : Option String
  success : Option Bool
  validation : Option Validation
deriving DecidableEq, Repr

/-- A response dictionary carrying only a text. -/
def mkResp (r : String) : Response :=
  ⟨r, none, none, none, none, none, none, none⟩

def outOfScopeText : String :=
  "I\x27m KontrataPH, your contract assistant. I can help with:\n\n• Generating contracts (Employment, Partnership, Lease, Buy & Sell)\n• Analyzing contracts\n• Answering questions about Philippine contract law\n\nWhat would you like help with?"

def greetingText : String :=
  "Hello! I\x27m KontrataPH, your Philippine contract assistant. I can help you:\n\n• Generate law-compliant contracts\n• Analyze existing contracts\n• Answer questions about Philippine contract law\n\nWhat would you like to do?"

def unknownText : String :=
  "I can help you generate contracts, analyze contracts, or answer questions about Philippine law. What would you like to do?"

/-- The upload prompt of the effective (second) `process_message`
definition. -/
def uploadPromptText : String :=
  "I can analyze your contract! Please upload the file using the  button."

/-- The upload prompt of the shadowed (first) `process_message`
definition. -/
def uploadPromptFirstText : String :=
  "I can analyze your contract! Please either:\n\n1. Upload a file using the  button, OR\n2. Paste the contract text after \x27analyze this contract:\x27\n\nExample: analyze this contract: [paste contract text here]"

def analysisCompleteText : String :=
  " Contract analysis complete! Check the panel for details."

/-- `_handle_greeting`. -/
def handleGreeting (session : Session) : Response × Session :=
  ({ mkResp greetingText with intent := some .GREETING },
   { session with messages := session.messages ++ [("assistant", greetingText)] })

/-- Everything after the first `':'` (`message.split(':', 1)[1]`). -/
def afterFirstColon (l : List Char) : List Char :=
  (l.dropWhile (fun c => c ≠ ':')).drop 1

/-- The effective `process_message`: the class body defines
`process_message` twice, and under Python semantics the second definition
(source lines 1146–1217) replaces the first, so this is the method callers
reach.  The generation-flow and question handlers are opaque parameters
(they drive the collection sub-state machine and the law Q&A); `_analyze`
stands for the `self.analyze_contract_text` method, which this definition
can reach but never calls.  Intent dispatch is written as a `match`; the
source chain of `if intent == …` tests over the distinct intent labels is
equivalent.  The source passes `{}` for the intent result when resuming a
flow; that is modelled by `none`. -/
def processMessage
    (handleGenerationFlow : String → Session → Option IntentResult → Response × Session)
    (handleQuestion : String → Session → Response × Session)
    (_analyze : String → String)
    (message : String) (sessionIn : Session) : Response × Session :=
  let session := { sessionIn with messages := sessionIn.messages ++ [("user", message)] }
  if session.awaitingDetails then handleGenerationFlow message session none
  else
    let ir := detectIntentC1 message
    match ir.intent with
    | .OUT_OF_SCOPE =>
      ({ mkResp outOfScopeText with intent := some .OUT_OF_SCOPE },
       { session with messages := session.messages ++ [("assistant", outOfScopeText)] })
    | .GREETING => handleGreeting session
    | .CREATE_CONTRACT => handleGenerationFlow message session (some ir)
    | .ANALYZE_CONTRACT =>
      ({ mkResp uploadPromptText with intent := some .ANALYZE_CONTRACT }, session)
    | .QUESTION => handleQuestion message session
    | .PROVIDING_INFO =>
      if session.contractType.isSome then handleGenerationFlow message session none
      else ({ mkResp unknownText with intent := some .UNKNOWN }, session)
    | .UNKNOWN => ({ mkResp unknownText with intent := some .UNKNOWN }, session)

/-- The shadowed first `process_message` definition (source lines
541–654); identical to the effective one except in the ANALYZE_CONTRACT
branch, which extracts contract text pasted after a colon (or takes a very
long message whole) and hands it to `analyzeContractText`. -/
def processMessageFirstDef
    (handleGenerationFlow : String → Session → Option IntentResult → Response × Session)
    (handleQuestion : String → Session → Response × Session)
    (analyzeContractText : String → String)
    (message : String) (sessionIn : Session) : Response × Session :=
  let session := { sessionIn with messages := sessionIn.messages ++ [("user", message)] }
  if session.awaitingDetails then handleGenerationFlow message session none
  else
    let ir := detectIntentC1 message
    match ir.intent with
    | .OUT_OF_SCOPE =>
      ({ mkResp outOfScopeText with intent := some .OUT_OF_SCOPE },
       { session with messages := session.messages ++ [("assistant", outOfScopeText)] })
    | .GREETING => handleGreeting session
    | .CREATE_CONTRACT => handleGenerationFlow message session (some ir)
    | .ANALYZE_CONTRACT =>
      let contractText : Option String :=
        if containsSub message ":" then
          some (pyStrip (String.mk (afterFirstColon message.toList)))
        else if 500 < message.length then some message
        else none
      match contractText with
      | some t =>
        if !t.isEmpty then
          let analysis := analyzeContractText t
          ({ mkResp analysisCompleteText with
              intent := some .ANALYZE_CONTRACT, analysis := some analysis },
           { session with messages := session.messages ++ [("assistant", analysisCompleteText)] })
        else
          ({ mkResp uploadPromptFirstText with intent := some .ANALYZE_CONTRACT }, session)
      | none =>
        ({ mkResp uploadPromptFirstText with intent := some .ANALYZE_CONTRACT }, session)
    | .QUESTION => handleQuestion message session
    | .PROVIDING_INFO =>
      if session.contractType.isSome then handleGenerationFlow message session none
      else ({ mkResp unknownText with intent := some .UNKNOWN }, session)
    | .UNKNOWN => ({ mkResp unknownText with intent := some .UNKNOWN }, session)

/-! ## Contract finalization (`_generate_contract_c5c6`) -/

structure ContractRecord where
  id : String
  ctype : String
  content : String
  details : List (String × Value)
  originalDetails : List (String × Value)
  specialClauses : List String
  validation : Validation
deriving DecidableEq, Repr

/-- The generator-module table of `_generate_contract_c5c6`. -/
def generatorsTable : List (String × String) :=
  [("EMPLOYMENT", "contract_generator.employment"),
   ("PARTNERSHIP", "contract_generator.partnership"),
   ("LEASE", "contract_generator.lease"),
   ("BUY_SELL", "contract_generator.buy_sell")]

/-- The success response text assembled after generation. -/
def generationSuccessText (contractType contractId : String)
    (specialClauses : List String) (validation : Validation) : String :=
  let base := " Your " ++ pyTitle (underscoreToSpace contractType) ++
    " contract has been generated!\n\n Contract ID: " ++ contractId ++ "\n"
  let base := if !specialClauses.isEmpty then
      base ++ "\n Included " ++ String.mk (natChars specialClauses.length) ++
        " special clause(s)\n"
    else base
  let base := if !validation.appliedDefaults.isEmpty then
      base ++ "\n Applied defaults:\n" ++
        String.intercalate "\n" (validation.appliedDefaults.map (fun d => "  • " ++ d))
    else base
  let base := if !validation.warnings.isEmpty then
      base ++ "\n️ Warnings:\n" ++
        String.intercalate "\n" (validation.warnings.map (fun w => "  • " ++ w))
    else base
  base ++ "\n\n Click the download button!\n Need another contract? Just ask!"

/-- `_generate_contract_c5c6`: format the inputs, render through the
category generator, store the record, reset the session, and build the
success response.  The renderer and the DOCX writer are external
collaborators passed as fallible functions; `contractId` stands for the
fresh `uuid4` prefix; `contracts` is the process-wide contract store.  Any
renderer exception is caught by the surrounding `try` and turned into a
generic failure response without reaching the session-reset assignments. -/
def generateContractC5C6
    (render : List (String × Value) → List String → List String → Except String String)
    (docx : String → String → String → Except String String)
    (contractId : String)
    (contracts : List (String × ContractRecord))
    (contractType : String) (details : List (String × Value))
    (validation : Validation) (session : Session)
    (specialClauses : List String) :
    Response × Session × List (String × ContractRecord) :=
  let formatted := formatContractInputs details
  match dictGet generatorsTable contractType with
  | none =>
    ({ mkResp ("Unknown contract type: " ++ contractType) with success := some false },
     session, contracts)
  | some _ =>
    match render formatted specialClauses [] with
    | .error e =>
      ({ mkResp (" Error: " ++ e) with success := some false }, session, contracts)
    | .ok content =>
      let contracts' := dictSet contracts contractId
        ⟨contractId, contractType, content, formatted, details, specialClauses, validation⟩
      let filePath := match docx contractId contractType content with
        | .ok p => some p
        | .error _ => none
      let session' := { session with
        awaitingDetails := false
        awaitingSpecialClauses := false
        askedSpecialClauses := false
        contractType := none
        details := []
        filled := []
        missing := []
        specialClauses := [] }
      ({ mkResp (generationSuccessText contractType contractId specialClauses validation) with
          intent := some .CREATE_CONTRACT
          contractId := some contractId
          contractType := some contractType
          filePath := filePath
          success := some true
          validation := some validation },
       session', contracts')

/-! # Theorems -/

/-! ## Generic helper lemmas -/

theorem stringMk_eq_empty_iff (l : List Char) : String.mk l = "" ↔ l = [] := by
  constructor
  · intro h
    have : (String.mk l).data = ("" : String).data := by rw [h]
    simpa using this
  · intro h
    rw [h]


theorem pyStrip_ne_empty_iff (s : String) :
    pyStrip s ≠ "" ↔ stripWSL s.toList ≠ [] := by
  unfold pyStrip
  rw [not_iff_not]
  exact stringMk_eq_empty_iff _

theorem dictHas_of_dictGet_some {l : List (String × α)} {k : String} {v : α}
    (h : dictGet l k = some v) : dictHas l k = true := by
  unfold dictGet at h
  unfold dictHas
  obtain ⟨p, hp⟩ := Option.map_eq_some'.mp h
  have hmem := List.mem_of_find?_eq_some hp.1
  have hkey := List.find?_some hp.1
  exact List.any_eq_true.mpr ⟨p, hmem, hkey⟩

theorem find?_of_not_dictHas {l : List (String × α)} {k : String}
    (h : ¬ dictHas l k = true) :
    l.find? (fun p => decide (p.1 = k)) = none := by
  refine List.find?_eq_none.mpr (fun x hx => ?_)
  intro hpx
  exact h (List.any_eq_true.mpr ⟨x, hx, hpx⟩)

theorem dictGet_map_overwrite_ne {l : List (String × α)} {k k' : String}
    {v : α} (hne : k' ≠ k) :
    dictGet (l.map (fun p => if p.1 = k' then (k', v) else p)) k = dictGet l k := by
  induction l with
  | nil => rfl
  | cons p ps ih =>
    simp only [List.map_cons]
    unfold dictGet at *
    by_cases hp : p.1 = k'
    · rw [if_pos hp,
        List.find?_cons_of_neg _ (by simp only [decide_eq_true_eq]; exact hne),
        List.find?_cons_of_neg _
          (by simp only [decide_eq_true_eq]; rw [hp]; exact hne)]
      exact ih
    · rw [if_neg hp]
      by_cases hpk : p.1 = k
      · rw [List.find?_cons_of_pos _ (by simpa using hpk),
          List.find?_cons_of_pos _ (by simpa using hpk)]
      · rw [List.find?_cons_of_neg _ (by simpa using hpk),
          List.find?_cons_of_neg _ (by simpa using hpk)]
        exact ih

theorem dictGet_dictSet_ne {l : List (String × α)} {k k' : String} {v : α}
    (hne : k' ≠ k) : dictGet (dictSet l k' v) k = dictGet l k := by
  unfold dictSet
  by_cases h : dictHas l k' = true
  · rw [if_pos h]
    exact dictGet_map_overwrite_ne hne
  · rw [if_neg h]
    unfold dictGet
    rw [List.find?_append]
    cases hf : List.find? (fun p => decide (p.1 = k)) l with
    | some a => rfl
    | none =>
      rw [Option.none_or,
        List.find?_cons_of_neg _ (by simp only [decide_eq_true_eq]; exact hne)]
      rfl

theorem dictGet_map_overwrite_self {l : List (String × α)} {k : String} {v : α}
    (h : dictHas l k = true) :
    dictGet (l.map (fun p => if p.1 = k then (k, v) else p)) k = some v := by
  induction l with
  | nil => simp [dictHas] at h
  | cons p ps ih =>
    simp only [List.map_cons]
    unfold dictGet
    by_cases hp : p.1 = k
    · rw [if_pos hp, List.find?_cons_of_pos _ (by simp)]
      rfl
    · rw [if_neg hp, List.find?_cons_of_neg _ (by simpa using hp)]
      have h' : dictHas ps k = true := by
        unfold dictHas at h ⊢
        simpa [List.any_cons, hp] using h
      exact ih h'

theorem dictGet_dictSet_self (l : List (String × α)) (k : String) (v : α) :
    dictGet (dictSet l k v) k = some v := by
  unfold dictSet
  by_cases h : dictHas l k = true
  · rw [if_pos h]
    exact dictGet_map_overwrite_self h
  · rw [if_neg h]
    unfold dictGet
    rw [List.find?_append, find?_of_not_dictHas h, Option.none_or,
      List.find?_cons_of_pos _ (by simp)]
    rfl

theorem dictGet_foldl_setIfAbsent (xs : List (String × α))
    {l : List (String × α)} {k : String} {v : α} (h : dictGet l k = some v) :
    dictGet (xs.foldl (fun acc p => dictSetIfAbsent acc p.1 p.2) l) k = some v := by
  induction xs generalizing l with
  | nil => exact h
  | cons x xs ih =>
    rw [List.foldl_cons]
    apply ih
    unfold dictSetIfAbsent
    by_cases hx : dictHas l x.1 = true
    · rwa [if_pos hx]
    · rw [if_neg hx]
      by_cases hk : x.1 = k
      · exact absurd (hk ▸ dictHas_of_dictGet_some h) hx
      · rw [dictGet_dictSet_ne hk]
        exact h

/-! ## C9: the filled/missing partition -/

/-- C9.  After every dialogue-state update, the filled and missing lists
partition the resolved schema: together (as a permutation) they are
exactly the required-field list, and no field is in both. -/
theorem C9_filled_missing_partition (required : List String)
    (contractType : String) (sessionDetails newData : List (String × Value)) :
    ((updateStateC2 required contractType sessionDetails newData).filled ++
        (updateStateC2 required contractType sessionDetails newData).missing).Perm
      required ∧
    ∀ f, f ∈ (updateStateC2 required contractType sessionDetails newData).filled →
      f ∉ (updateStateC2 required contractType sessionDetails newData).missing := by
  constructor
  · exact List.filter_append_perm _ required
  · intro f hf hm
    have h1 := List.of_mem_filter hf
    have h2 := List.of_mem_filter hm
    rw [h1] at h2
    exact absurd h2 (by simp)

/-! ## C7: clause cleanup never empties a non-blank clause -/

/-- C7 counterexample.  The whitespace-only clause text `"   "` is a
non-empty string, yet cleanup returns the empty string for it (the
fallback returns the stripped original, which is empty), so the claim
fails as stated for inputs that are blank but non-empty. -/
theorem C7_counterexample_whitespace_clause :
    cleanGeneratedClause "   " = "" ∧ ("   " : String) ≠ "" := by
  constructor
  · rfl
  · decide

/-- C7 (amended).  For every clause text that is non-blank after trimming
whitespace, cleanup never returns empty output: whenever cleaning would
remove the entire text (or leave fewer than 20 characters), the
whitespace-trimmed original text is returned instead, and the main path
only returns cleaned text of at least 20 characters. -/
theorem C7_cleanup_nonempty (c : String) (h : pyStrip c ≠ "") :
    cleanGeneratedClause c ≠ "" := by
  have hl : stripWSL c.toList ≠ [] := (pyStrip_ne_empty_iff c).mp h
  unfold cleanGeneratedClause
  set c3 := disclaimerPatterns.foldl
    (fun acc pp => removeMatchingLines pp.1 pp.2 acc)
    (if 0 <
        ((splitOnChar '\n' (cutFirstPreamble c.toList)).findIdx?
          (fun ln => isClauseTitle (stripWSL ln))).getD 0 then
      joinNL ((splitOnChar '\n' (cutFirstPreamble c.toList)).drop
        (((splitOnChar '\n' (cutFirstPreamble c.toList)).findIdx?
          (fun ln => isClauseTitle (stripWSL ln))).getD 0))
    else cutFirstPreamble c.toList) with hc3
  by_cases hg : (stripWSL c3).isEmpty || decide ((stripWSL c3).length < 20)
  · simp only [hg, if_true]
    rw [Ne, stringMk_eq_empty_iff]
    exact hl
  · simp only [hg, if_false, Bool.false_eq_true]
    rw [Ne, stringMk_eq_empty_iff]
    intro he
    rw [he] at hg
    simp at hg

/-- C7 witness: a concrete non-blank clause for which the amended theorem
applies (here cleanup falls back to the stripped original because the
cleaned text is shorter than 20 characters). -/
theorem C7_cleanup_nonempty_witness :
    pyStrip "SHORT" ≠ "" ∧ cleanGeneratedClause "SHORT" ≠ "" :=
  ⟨by decide, C7_cleanup_nonempty "SHORT" (by decide)⟩

/-! ## C8: a renderer failure leaves the session recoverable -/

/-- C8.  If the renderer raises during finalization, the operation returns
the generic failure response (success `false`), and neither the session
nor the contract store is touched: the category, details and special
clauses all survive for a retry. -/
theorem C8_generation_failure_recoverable
    (render : List (String × Value) → List String → List String → Except String String)
    (docx : String → String → String → Except String String)
    (contractId : String) (contracts : List (String × ContractRecord))
    (contractType : String) (details : List (String × Value))
    (validation : Validation) (session : Session) (specialClauses : List String)
    (e : String) (g : String)
    (hgen : dictGet generatorsTable contractType = some g)
    (hfail : render (formatContractInputs details) specialClauses [] = .error e) :
    (generateContractC5C6 render docx contractId contracts contractType details
        validation session specialClauses).1.response = " Error: " ++ e ∧
    (generateContractC5C6 render docx contractId contracts contractType details
        validation session specialClauses).1.success = some false ∧
    (generateContractC5C6 render docx contractId contracts contractType details
        validation session specialClauses).2.1 = session ∧
    (generateContractC5C6 render docx contractId contracts contractType details
        validation session specialClauses).2.2 = contracts := by
  simp only [generateContractC5C6, hgen, hfail]
  simp [mkResp]

/-- C8 witness: a concrete failing renderer with a session mid-flow; the
session (category, details, special clauses) and store are returned
unchanged together with the failure response. -/
theorem C8_generation_failure_recoverable_witness :
    dictGet generatorsTable "EMPLOYMENT" = some "contract_generator.employment" ∧
    ((fun (_ : List (String × Value)) (_ : List String) (_ : List String) =>
        (Except.error "renderer crashed" : Except String String))
      (formatContractInputs [("salary", Value.vStr "50000")]) ["clause text"] [] =
        .error "renderer crashed") ∧
    (generateContractC5C6
        (fun _ _ _ => .error "renderer crashed") (fun _ _ _ => .ok "path")
        "abc12345" [] "EMPLOYMENT" [("salary", Value.vStr "50000")]
        ⟨true, [], [], []⟩
        ⟨"default", [], true, false, true, some "EMPLOYMENT",
          [("salary", Value.vStr "50000")], ["clause text"], ["salary"], []⟩
        ["clause text"]).2.1 =
      ⟨"default", [], true, false, true, some "EMPLOYMENT",
        [("salary", Value.vStr "50000")], ["clause text"], ["salary"], []⟩ ∧
    (generateContractC5C6
        (fun _ _ _ => .error "renderer crashed") (fun _ _ _ => .ok "path")
        "abc12345" [] "EMPLOYMENT" [("salary", Value.vStr "50000")]
        ⟨true, [], [], []⟩
        ⟨"default", [], true, false, true, some "EMPLOYMENT",
          [("salary", Value.vStr "50000")], ["clause text"], ["salary"], []⟩
        ["clause text"]).1.success = some false := by
  have hmain := C8_generation_failure_recoverable
    (fun _ _ _ => .error "renderer crashed") (fun _ _ _ => .ok "path")
    "abc12345" [] "EMPLOYMENT" [("salary", Value.vStr "50000")]
    ⟨true, [], [], []⟩
    ⟨"default", [], true, false, true, some "EMPLOYMENT",
      [("salary", Value.vStr "50000")], ["clause text"], ["salary"], []⟩
    ["clause text"] "renderer crashed" "contract_generator.employment" rfl rfl
  exact ⟨rfl, rfl, hmain.2.2.1, hmain.2.1⟩

/-! ## C10: the effective `process_message` and the shadowed analysis
branch -/

/-- C10.  Under Python semantics the second `process_message` definition
replaces the first, and its ANALYZE_CONTRACT branch is a constant upload
prompt.  For every message classified ANALYZE_CONTRACT outside an active
collection flow, the effective `process_message` returns the upload-prompt
response, carries no analysis, and never invokes the text-analysis routine
(its result is independent of that routine); the first definition, had it
survived, would have invoked the routine on the text pasted after the
colon. -/
theorem C10_effective_analyze_upload_prompt
    (flowH : String → Session → Option IntentResult → Response × Session)
    (qH : String → Session → Response × Session)
    (a₁ a₂ : String → String) (message : String) (session : Session)
    (hflow : session.awaitingDetails = false)
    (hintent : (detectIntentC1 message).intent = .ANALYZE_CONTRACT) :
    (processMessage flowH qH a₁ message session).1.response = uploadPromptText ∧
    (processMessage flowH qH a₁ message session).1.analysis = none ∧
    processMessage flowH qH a₁ message session =
      processMessage flowH qH a₂ message session ∧
    (containsSub message ":" = true →
      (pyStrip (String.mk (afterFirstColon message.toList))).isEmpty = false →
      (processMessageFirstDef flowH qH a₁ message session).1.analysis =
        some (a₁ (pyStrip (String.mk (afterFirstColon message.toList))))) := by
  refine ⟨?_, ?_, ?_, ?_⟩
  · simp only [processMessage, hflow, hintent]
    rfl
  · simp only [processMessage, hflow, hintent]
    rfl
  · simp only [processMessage, hflow, hintent]
  · intro hcolon hne
    simp only [String.toList] at hne
    simp [processMessageFirstDef, hflow, hintent, hcolon, hne]

/-- C10 witness: a concrete analyze request with pasted text against a
fresh session; the effective entry point answers with the upload prompt. -/
theorem C10_effective_analyze_upload_prompt_witness :
    (freshSession "default").awaitingDetails = false ∧
    (detectIntentC1 "analyze this contract: WHEREAS the parties agree").intent =
      .ANALYZE_CONTRACT ∧
    (processMessage (fun m s _ => (mkResp m, s)) (fun m s => (mkResp m, s))
        (fun t => t) "analyze this contract: WHEREAS the parties agree"
        (freshSession "default")).1.response = uploadPromptText := by
  have h := C10_effective_analyze_upload_prompt
    (fun m s _ => (mkResp m, s)) (fun m s => (mkResp m, s))
    (fun t => t) (fun t => t)
    "analyze this contract: WHEREAS the parties agree" (freshSession "default")
    rfl (by decide)
  exact ⟨rfl, by decide, h.1⟩

/-! ## C4 and C5: intent-classifier characterizations -/

theorem detectIntent_greeting_iff (s : String) :
    (detectIntentC1 s).intent = .GREETING ↔ greetingHit (pyLower s) = true := by
  unfold detectIntentC1
  cases hb : greetingHit (pyLower s) with
  | true => simp [hb]
  | false =>
    simp only [hb, Bool.false_eq_true, if_false]
    constructor
    · intro h
      exfalso
      revert h
      cases h1 : analysisHit (pyLower s) <;>
        simp only [h1, Bool.false_eq_true, if_false, if_true] <;>
        intro h <;>
      first
      | (revert h; split_ifs <;> intro h <;> simp_all)
      | simp_all
    · intro h
      exact absurd h (by simp)

/-- C4.  The classifier returns GREETING exactly when the (lowered,
stripped) utterance starts with a greeting token and the utterance has at
most two whitespace-separated words; in particular every utterance that is
exactly a greeting token is classified GREETING. -/
theorem C4_greeting_intent_characterization (s : String) :
    ((detectIntentC1 s).intent = .GREETING ↔
      ((∃ w ∈ greetingWords, pyStartsWith (pyStrip (pyLower s)) w = true) ∧
        (pySplitWS (pyLower s)).length ≤ 2)) ∧
    (s ∈ greetingWords → (detectIntentC1 s).intent = .GREETING) := by
  constructor
  · rw [detectIntent_greeting_iff]
    unfold greetingHit
    simp [List.any_eq_true]
  · intro hs
    rw [detectIntent_greeting_iff]
    fin_cases hs <;> decide

/-- C4 witness: the bare greeting token `"hello"` is classified
GREETING. -/
theorem C4_greeting_intent_witness :
    ("hello" ∈ greetingWords) ∧ (detectIntentC1 "hello").intent = .GREETING :=
  ⟨by decide, (C4_greeting_intent_characterization "hello").2 (by decide)⟩

/-- C5 counterexample.  The utterance `"hianalyze contract"` contains the
analysis-request phrase `"analyze contract"`, yet the classifier returns
GREETING, not ANALYZE_CONTRACT: the greeting branch is checked first and
fires on any two-word utterance starting with `"hi"`.  So the claim fails
as stated. -/
theorem C5_counterexample_greeting_precedes_analysis :
    analysisHit (pyLower "hianalyze contract") = true ∧
    (detectIntentC1 "hianalyze contract").intent = .GREETING ∧
    Intent.GREETING ≠ Intent.ANALYZE_CONTRACT :=
  ⟨by decide, by decide, by decide⟩

/-- C5 (amended).  For every utterance containing an analysis-request
phrase that is not caught by the earlier GREETING branch (i.e. does not
both start with a greeting token and have at most two words), the
classifier returns ANALYZE_CONTRACT — even when contract-category keywords
or generation verbs are also present. -/
theorem C5_analysis_intent (s : String)
    (ha : analysisHit (pyLower s) = true)
    (hg : greetingHit (pyLower s) = false) :
    (detectIntentC1 s).intent = .ANALYZE_CONTRACT := by
  unfold detectIntentC1
  simp [ha, hg]

/-- C5 witness: an analysis request that also contains the generation verb
`"need"` and the category keyword `"lease"` is still ANALYZE_CONTRACT. -/
theorem C5_analysis_intent_witness :
    analysisHit (pyLower "i need you to analyze this contract for my lease") = true ∧
    greetingHit (pyLower "i need you to analyze this contract for my lease") = false ∧
    (detectContractType "i need you to analyze this contract for my lease").isSome = true ∧
    generationPatterns.any
      (fun kw => containsSub (pyLower "i need you to analyze this contract for my lease") kw) = true ∧
    (detectIntentC1 "i need you to analyze this contract for my lease").intent =
      .ANALYZE_CONTRACT :=
  ⟨by decide, by decide, by decide, by decide,
    C5_analysis_intent "i need you to analyze this contract for my lease"
      (by decide) (by decide)⟩

/-! ## C2: the Fill-State Classifier characterization -/

theorem natCharsAux_mem {fuel n : Nat} (h : n < fuel) :
    ∀ c ∈ natCharsAux fuel n, ∃ k, k < 10 ∧ c = digitChar k := by
  induction fuel generalizing n with
  | zero => omega
  | succ fuel ih =>
    intro c hc
    unfold natCharsAux at hc
    by_cases h10 : n < 10
    · rw [if_pos h10] at hc
      simp only [List.mem_singleton] at hc
      exact ⟨n, h10, hc⟩
    · rw [if_neg h10] at hc
      rcases List.mem_append.mp hc with h1 | h1
      · have hdiv : n / 10 < n := Nat.div_lt_self (by omega) (by omega)
        exact ih (by omega) c h1
      · simp only [List.mem_singleton] at h1
        exact ⟨n % 10, Nat.mod_lt _ (by omega), h1⟩

theorem natChars_mem {n : Nat} : ∀ c ∈ natChars n, ∃ k, k < 10 ∧ c = digitChar k :=
  natCharsAux_mem (Nat.lt_succ_self n)

theorem natChars_ne_nil (n : Nat) : natChars n ≠ [] := by
  unfold natChars natCharsAux
  by_cases h10 : n < 10
  · rw [if_pos h10]; simp
  · rw [if_neg h10]; simp

theorem intChars_mem {n : Int} :
    ∀ c ∈ intChars n, c = '-' ∨ ∃ k, k < 10 ∧ c = digitChar k := by
  unfold intChars
  intro c hc
  by_cases hn : n < 0
  · rw [if_pos hn] at hc
    rcases List.mem_cons.mp hc with h | h
    · exact Or.inl h
    · exact Or.inr (natChars_mem c h)
  · rw [if_neg hn] at hc
    exact Or.inr (natChars_mem c hc)

theorem intChars_ne_nil (n : Int) : intChars n ≠ [] := by
  unfold intChars
  by_cases hn : n < 0
  · rw [if_pos hn]; simp
  · rw [if_neg hn]; exact natChars_ne_nil _

theorem digitChar_props {k : Nat} (h : k < 10) :
    (digitChar k).isWhitespace = false ∧ Char.toLower (digitChar k) = digitChar k ∧
    digitChar k ≠ '[' ∧ digitChar k ≠ '.' ∧ digitChar k ≠ 't' ∧ digitChar k ≠ 'n' := by
  interval_cases k <;> exact ⟨rfl, rfl, by decide, by decide, by decide, by decide⟩

theorem dropWhile_eq_self_of_all {p : Char → Bool} :
    ∀ {l : List Char}, (∀ c ∈ l, p c = false) → l.dropWhile p = l
  | [], _ => rfl
  | c :: cs, h => by
    rw [List.dropWhile_cons, h c (by simp)]
    simp

theorem stripWSL_eq_self {l : List Char}
    (h : ∀ c ∈ l, c.isWhitespace = false) : stripWSL l = l := by
  unfold stripWSL
  rw [dropWhile_eq_self_of_all h,
    dropWhile_eq_self_of_all (fun c hc => h c (List.mem_reverse.mp hc)),
    List.reverse_reverse]

theorem map_toLower_eq_self {l : List Char}
    (h : ∀ c ∈ l, Char.toLower c = c) : l.map Char.toLower = l := by
  induction l with
  | nil => rfl
  | cons c cs ih =>
    rw [List.map_cons, h c (by simp), ih (fun x hx => h x (by simp [hx]))]

theorem bracketWrapped_iff (t : List Char) :
    bracketWrapped t = true ↔ ∃ mid, t = '[' :: mid ++ [']'] ∧ '\n' ∉ mid := by
  unfold bracketWrapped
  simp only [Bool.and_eq_true, decide_eq_true_eq, List.all_eq_true]
  constructor
  · rintro ⟨⟨⟨hhead, hlast⟩, hlen⟩, hmid⟩
    cases t with
    | nil => simp at hhead
    | cons c t0 =>
      simp only [List.head?_cons, Option.some.injEq] at hhead
      subst hhead
      have ht0 : t0 ≠ [] := by
        intro h0
        subst h0
        simp at hlen
      have hsplit := List.dropLast_append_getLast ht0
      have hlastv : t0.getLast ht0 = ']' := by
        have h1 : ('[' :: t0).getLast? = some (t0.getLast ht0) := by
          conv_lhs => rw [← hsplit]
          rw [← List.cons_append, List.getLast?_concat]
        rw [h1] at hlast
        exact Option.some.injEq _ _ ▸ hlast.symm ▸ rfl
      refine ⟨t0.dropLast, ?_, ?_⟩
      · conv_lhs => rw [← hsplit]
        rw [hlastv]
        rfl
      · intro hmem
        have := hmid '\n' (by
          simp only [List.drop_one, List.tail_cons]
          exact hmem)
        simp at this
  · rintro ⟨mid, ht, hnl⟩
    subst ht
    refine ⟨⟨⟨rfl, ?_⟩, ?_⟩, ?_⟩
    · show (('[' :: mid) ++ [']']).getLast? = some ']'
      exact List.getLast?_concat _
    · simp only [List.cons_append, List.length_cons, List.length_append,
        List.length_singleton]
      omega
    · intro c hc
      simp only [List.cons_append, List.drop_one, List.tail_cons,
        List.dropLast_concat] at hc
      intro h
      subst h
      exact hnl hc

theorem isPlaceholder_iff (t : List Char) :
    isPlaceholder t = true ↔
      ((∃ mid, t = '[' :: mid ++ [']'] ∧ '\n' ∉ mid) ∨
       (3 ≤ t.length ∧ ∀ c ∈ t, c = '.') ∨
       t = "to be determined".toList ∨ t = "tbd".toList ∨
       t = "na".toList ∨ t = "n/a".toList) := by
  unfold isPlaceholder
  simp only [Bool.or_eq_true, Bool.and_eq_true, decide_eq_true_eq,
    List.all_eq_true, bracketWrapped_iff, or_assoc]

theorem isPlaceholder_false_of_head {c : Char} {rest : List Char}
    (h1 : c ≠ '[') (h2 : c ≠ '.') (h3 : c ≠ 't') (h4 : c ≠ 'n') :
    isPlaceholder (c :: rest) = false := by
  rw [Bool.eq_false_iff, Ne, isPlaceholder_iff]
  intro h
  rcases h with ⟨mid, hm, _⟩ | ⟨_, hall⟩ | h | h | h | h
  · rw [List.cons_append, List.cons.injEq] at hm
    exact h1 hm.1
  · exact h2 (hall c (by simp))
  · rw [show ("to be determined".toList) = 't' :: "o be determined".toList from rfl,
      List.cons.injEq] at h
    exact h3 h.1
  · rw [show ("tbd".toList) = 't' :: "bd".toList from rfl, List.cons.injEq] at h
    exact h3 h.1
  · rw [show ("na".toList) = 'n' :: "a".toList from rfl, List.cons.injEq] at h
    exact h4 h.1
  · rw [show ("n/a".toList) = 'n' :: "/a".toList from rfl, List.cons.injEq] at h
    exact h4 h.1

theorem isValueFilled_vInt {n : Int} (hn : n ≠ 0) :
    isValueFilled (.vInt n) = true := by
  have hchars := @intChars_mem n
  have hnows : ∀ c ∈ intChars n, c.isWhitespace = false := by
    intro c hc
    rcases hchars c hc with h | ⟨k, hk, h⟩
    · subst h; decide
    · subst h; exact (digitChar_props hk).1
  have hlow : ∀ c ∈ intChars n, Char.toLower c = c := by
    intro c hc
    rcases hchars c hc with h | ⟨k, hk, h⟩
    · subst h; decide
    · subst h; exact (digitChar_props hk).2.1
  have hstr : pyStr (.vInt n) = String.mk (intChars n) := rfl
  have hstrip : pyStrip (String.mk (intChars n)) = String.mk (intChars n) := by
    unfold pyStrip
    rw [show (String.mk (intChars n)).toList = intChars n from rfl,
      stripWSL_eq_self hnows]
  have hne : String.mk (intChars n) ≠ "" := by
    rw [Ne, stringMk_eq_empty_iff]
    exact intChars_ne_nil n
  have hlower : (pyLower (String.mk (intChars n))).toList = intChars n := by
    unfold pyLower
    rw [show (String.mk (intChars n)).toList = intChars n from rfl]
    rw [show (String.mk ((intChars n).map Char.toLower)).toList =
      (intChars n).map Char.toLower from rfl]
    exact map_toLower_eq_self hlow
  have hplace : isPlaceholder (pyLower (String.mk (intChars n))).toList = false := by
    rw [hlower]
    cases hic : intChars n with
    | nil => exact absurd hic (intChars_ne_nil n)
    | cons c cs =>
      have hc : c ∈ intChars n := by rw [hic]; simp
      rcases hchars c hc with h | ⟨k, hk, h⟩
      · subst h
        exact isPlaceholder_false_of_head (by decide) (by decide) (by decide)
          (by decide)
      · subst h
        obtain ⟨_, _, p1, p2, p3, p4⟩ := digitChar_props hk
        exact isPlaceholder_false_of_head p1 p2 p3 p4
  have htr : pyTruthy (.vInt n) = true := by simp [pyTruthy, hn]
  unfold isValueFilled
  rw [htr]
  simp only [Bool.not_true, Bool.false_eq_true, if_false]
  rw [hstr, hstrip, if_neg hne, hplace]
  rfl

theorem item_unfilled_iff (item : String) :
    (!decide (item = "") && !decide (pyStrip item = "")) = false ↔
      pyStrip item = "" := by
  by_cases h : item = ""
  · subst h
    simp [show pyStrip "" = "" from rfl]
  · simp [h]

/-- C2 counterexample.  The one-element list holding the empty string is
not an empty list (and is truthy), so by the claim as stated it should be
classified filled; the classifier returns not-filled for it, because a
list is only filled when some item is non-blank. -/
theorem C2_counterexample_blank_item_list :
    isValueFilled (.vList [""]) = false ∧ ¬ specUnfilledClaimed (.vList [""]) := by
  constructor
  · rfl
  · intro h
    rcases h with h | ⟨s, hs, _⟩ | h | ⟨s, hs, _⟩
    · simp [pyTruthy] at h
    · exact absurd hs (by simp)
    · simp at h
    · exact absurd hs (by simp)

/-- C2 (amended).  The Fill-State Classifier returns not-filled exactly
for: falsy values; strings empty after trimming; lists all of whose items
are empty or whitespace-only (in particular the empty list); and
placeholder strings — single-line bracket-wrapped text, three-plus-dot
ellipsis text, "to be determined", "tbd", and "n/a" (case-insensitive,
with or without the slash).  Every other value is classified filled. -/
theorem C2_fill_state_characterization (v : Value) :
    isValueFilled v = false ↔ specUnfilledAmended v := by
  cases v with
  | vNone =>
    simp [isValueFilled, pyTruthy, specUnfilledAmended]
  | vInt n =>
    by_cases hn : n = 0
    · subst hn
      simp [isValueFilled, pyTruthy, specUnfilledAmended]
    · rw [isValueFilled_vInt hn]
      simp only [Bool.true_eq_false, false_iff]
      intro h
      rcases h with h | ⟨s, hs, _⟩ | ⟨l, hl, _⟩ | ⟨s, hs, _⟩
      · simp [pyTruthy, hn] at h
      · exact absurd hs (by simp)
      · exact absurd hl (by simp)
      · exact absurd hs (by simp)
  | vStr s =>
    by_cases hs : s = ""
    · subst hs
      constructor
      · intro _
        exact Or.inl rfl
      · intro _
        rfl
    · have ht : pyTruthy (.vStr s) = true := by simp [pyTruthy, hs]
      unfold isValueFilled
      rw [ht]
      simp only [Bool.not_true, Bool.false_eq_true, if_false]
      show (if pyStrip s = "" then false
        else !isPlaceholder (pyLower (pyStrip s)).toList) = false ↔ _
      by_cases hstrip : pyStrip s = ""
      · rw [if_pos hstrip]
        constructor
        · intro _
          exact Or.inr (Or.inl ⟨s, rfl, hstrip⟩)
        · intro _
          rfl
      · rw [if_neg hstrip]
        rw [show ((!isPlaceholder (pyLower (pyStrip s)).toList) = false ↔
          isPlaceholder (pyLower (pyStrip s)).toList = true) from by simp]
        rw [isPlaceholder_iff]
        constructor
        · intro h
          exact Or.inr (Or.inr (Or.inr ⟨s, rfl, h⟩))
        · intro h
          rcases h with h | ⟨s', hs', hstrip'⟩ | ⟨l, hl, _⟩ | ⟨s', hs', hp⟩
          · rw [ht] at h
            exact absurd h (by simp)
          · rw [Value.vStr.injEq] at hs'
            exact absurd (hs' ▸ hstrip') hstrip
          · exact absurd hl (by simp)
          · rw [Value.vStr.injEq] at hs'
            exact hs' ▸ hp
  | vList l =>
    cases l with
    | nil =>
      constructor
      · intro _
        exact Or.inl rfl
      · intro _
        rfl
    | cons x xs =>
      have ht : pyTruthy (.vList (x :: xs)) = true := by simp [pyTruthy]
      unfold isValueFilled
      rw [ht]
      simp only [Bool.not_true, Bool.false_eq_true, if_false]
      show (decide (0 < (x :: xs).length) &&
        (x :: xs).any (fun item => !decide (item = "") &&
          !decide (pyStrip item = ""))) = false ↔ _
      rw [show (decide (0 < (x :: xs).length)) = true from by simp]
      rw [Bool.true_and]
      constructor
      · intro h
        refine Or.inr (Or.inr (Or.inl ⟨x :: xs, rfl, ?_⟩))
        intro item hitem
        have hfalse : (!decide (item = "") && !decide (pyStrip item = "")) = false := by
          by_contra hcon
          have : (x :: xs).any
              (fun item => !decide (item = "") && !decide (pyStrip item = "")) = true :=
            List.any_eq_true.mpr ⟨item, hitem, by
              cases hv : (!decide (item = "") && !decide (pyStrip item = ""))
              · exact absurd hv hcon
              · rfl⟩
          rw [this] at h
          exact absurd h (by simp)
        exact (item_unfilled_iff item).mp hfalse
      · intro h
        rcases h with h | ⟨s', hs', _⟩ | ⟨l', hl', hall⟩ | ⟨s', hs', _⟩
        · rw [ht] at h
          exact absurd h (by simp)
        · exact absurd hs' (by simp)
        · rw [Value.vList.injEq] at hl'
          subst hl'
          rw [Bool.eq_false_iff, Ne]
          intro hany
          obtain ⟨item, hitem, hcond⟩ := List.any_eq_true.mp hany
          have := (item_unfilled_iff item).mpr (hall item hitem)
          rw [this] at hcond
          exact absurd hcond (by simp)
        · exact absurd hs' (by simp)

/-! ## C3: partnership multi-party name extraction -/

/-- C3.  Extracting slots from the partnership utterance
`"Partner Names: Mark Joseph and Jaedan Bahala"` yields `partner_names`
equal to the two-element list — never a single concatenated string — for
every completion-service result, every tagger entity list and every schema
containing `partner_names`: the partnership pre-pass parses the name list
before the generic strategies run, and the later strategies only fill
fields that are still absent. -/
theorem C3_partner_names_extraction
    (llmAvailable : Bool) (llmExtracted : List (String × Value))
    (spacyAvailable : Bool) (spacyEnts : List (String × String))
    (requiredFields : List String)
    (hreq : requiredFields.any (fun f => f = "partner_names") = true) :
    dictGet (extractEntitiesC3 llmAvailable llmExtracted spacyAvailable spacyEnts
        requiredFields "Partner Names: Mark Joseph and Jaedan Bahala" "PARTNERSHIP")
      "partner_names" = some (.vList ["Mark Joseph", "Jaedan Bahala"]) := by
  have hpart : extractPartnerNames "Partner Names: Mark Joseph and Jaedan Bahala" =
      ["Mark Joseph", "Jaedan Bahala"] := by rfl
  unfold extractEntitiesC3
  simp only [hreq, hpart]
  norm_num
  have h0 : dictGet (dictSet ([] : List (String × Value)) "partner_names"
      (.vList ["Mark Joseph", "Jaedan Bahala"])) "partner_names" =
      some (.vList ["Mark Joseph", "Jaedan Bahala"]) :=
    dictGet_dictSet_self _ _ _
  by_cases hl : llmAvailable = true <;> by_cases hsp : spacyAvailable = true <;>
    simp only [hl, hsp, if_true, if_false, Bool.false_eq_true] <;>
    first
      | exact dictGet_foldl_setIfAbsent _
          (dictGet_foldl_setIfAbsent _ (dictGet_foldl_setIfAbsent _ h0))
      | exact dictGet_foldl_setIfAbsent _ (dictGet_foldl_setIfAbsent _ h0)
      | exact dictGet_foldl_setIfAbsent _ h0

/-- C3 witness: with the static PARTNERSHIP schema, an available
completion service returning a wrong single-string value and an available
tagger returning a PERSON entity, the extraction still produces the
two-element list. -/
theorem C3_partner_names_extraction_witness :
    (["partner_names", "business_name", "partnership_type",
      "capital_contribution", "profit_sharing_ratio",
      "business_address"].any (fun f => f = "partner_names")) = true ∧
    dictGet (extractEntitiesC3 true
        [("partner_names", .vStr "Mark Joseph and Jaedan Bahala")]
        true [("PERSON", "Mark Joseph")]
        ["partner_names", "business_name", "partnership_type",
         "capital_contribution", "profit_sharing_ratio", "business_address"]
        "Partner Names: Mark Joseph and Jaedan Bahala" "PARTNERSHIP")
      "partner_names" = some (.vList ["Mark Joseph", "Jaedan Bahala"]) :=
  ⟨by decide,
    C3_partner_names_extraction true
      [("partner_names", .vStr "Mark Joseph and Jaedan Bahala")]
      true [("PERSON", "Mark Joseph")]
      ["partner_names", "business_name", "partnership_type",
       "capital_contribution", "profit_sharing_ratio", "business_address"]
      (by decide)⟩

/-! ## C6: required-clause defaults and blocking errors -/

theorem string_append_left_cancel {a b c : String} (h : a ++ b = a ++ c) :
    b = c := by
  cases a with
  | mk da =>
    cases b with
    | mk db =>
      cases c with
      | mk dc =>
        have hd : da ++ db = da ++ dc := congrArg String.data h
        rw [List.append_cancel_left hd]

theorem missingErrStr_ne {a b : String}
    (h : pyTitle (underscoreToSpace a) ≠ pyTitle (underscoreToSpace b)) :
    missingErrStr a ≠ missingErrStr b := by
  intro he
  exact h (string_append_left_cancel he)

/-- Exhaustive effect analysis of one required-clause step. -/
theorem clauseStep_spec (v : Validation) (d : List (String × Value))
    (c : ClauseRule) :
    ((clauseStep (v, d) c).1.errors = v.errors ∨
      (clauseStep (v, d) c).1.errors = v.errors ++ [missingErrStr c.name]) ∧
    ((clauseStep (v, d) c).1.appliedDefaults = v.appliedDefaults ∨
      ∃ d0, (clauseStep (v, d) c).1.appliedDefaults =
        v.appliedDefaults ++ [appliedDefaultStr c.name d0]) ∧
    ((clauseStep (v, d) c).1.valid = v.valid ∨
      (clauseStep (v, d) c).1.valid = false) ∧
    ((clauseStep (v, d) c).2 = d ∨
      ∃ d0, (clauseStep (v, d) c).2 = dictSet d c.name (.vStr d0)) := by
  by_cases hu : clauseUnfilled d c.name = true
  · cases hdef : c.default with
    | some d0 =>
      have hstep : clauseStep (v, d) c =
          ({ v with appliedDefaults :=
              v.appliedDefaults ++ [appliedDefaultStr c.name d0] },
            dictSet d c.name (.vStr d0)) := by
        simp only [clauseStep]
        rw [if_pos hu, hdef]
      rw [hstep]
      exact ⟨Or.inl rfl, Or.inr ⟨d0, rfl⟩, Or.inl rfl, Or.inr ⟨d0, rfl⟩⟩
    | none =>
      by_cases hm : c.mandatory = true
      · have hstep : clauseStep (v, d) c =
            ({ v with
                errors := v.errors ++ [missingErrStr c.name]
                valid := false }, d) := by
          simp only [clauseStep]
          rw [if_pos hu, hdef, if_pos hm]
        rw [hstep]
        exact ⟨Or.inr rfl, Or.inl rfl, Or.inr rfl, Or.inl rfl⟩
      · have hstep : clauseStep (v, d) c = (v, d) := by
          simp only [clauseStep]
          rw [if_pos hu, hdef, if_neg hm]
        rw [hstep]
        exact ⟨Or.inl rfl, Or.inl rfl, Or.inl rfl, Or.inl rfl⟩
  · have hstep : clauseStep (v, d) c = (v, d) := by
      simp only [clauseStep]
      rw [if_neg hu]
    rw [hstep]
    exact ⟨Or.inl rfl, Or.inl rfl, Or.inl rfl, Or.inl rfl⟩

theorem validateClauses_get_ne {name : String} :
    ∀ {cs : List ClauseRule}, (∀ c ∈ cs, c.name ≠ name) →
      ∀ (v : Validation) (d : List (String × Value)),
    dictGet (validateClauses cs v d).2 name = dictGet d name := by
  intro cs
  induction cs with
  | nil => intro _ v d; rfl
  | cons c cs ih =>
    intro h v d
    unfold validateClauses at *
    rw [List.foldl_cons]
    have hrec := ih (fun c' hc' => h c' (by simp [hc'])) (clauseStep (v, d) c).1
      (clauseStep (v, d) c).2
    rw [show ((clauseStep (v, d) c).1, (clauseStep (v, d) c).2) =
      clauseStep (v, d) c from rfl] at hrec
    rw [hrec]
    rcases (clauseStep_spec v d c).2.2.2 with hd | ⟨d0, hd⟩
    · rw [hd]
    · rw [hd, dictGet_dictSet_ne (h c (by simp))]

theorem validateClauses_count_ne {name : String} :
    ∀ {cs : List ClauseRule},
      (∀ c ∈ cs, missingErrStr c.name ≠ missingErrStr name) →
      ∀ (v : Validation) (d : List (String × Value)),
    ((validateClauses cs v d).1.errors).count (missingErrStr name) =
      v.errors.count (missingErrStr name) := by
  intro cs
  induction cs with
  | nil => intro _ v d; rfl
  | cons c cs ih =>
    intro h v d
    unfold validateClauses at *
    rw [List.foldl_cons]
    have hrec := ih (fun c' hc' => h c' (by simp [hc'])) (clauseStep (v, d) c).1
      (clauseStep (v, d) c).2
    rw [show ((clauseStep (v, d) c).1, (clauseStep (v, d) c).2) =
      clauseStep (v, d) c from rfl] at hrec
    rw [hrec]
    rcases (clauseStep_spec v d c).1 with he | he
    · rw [he]
    · have hne := h c (by simp)
      have h0 : List.count (missingErrStr name) [missingErrStr c.name] = 0 := by
        simp [List.count_cons, Ne.symm hne]
      rw [he, List.count_append, h0, Nat.add_zero]

theorem validateClauses_defaults_mono {x : String} :
    ∀ {cs : List ClauseRule} (v : Validation) (d : List (String × Value)),
      x ∈ v.appliedDefaults → x ∈ (validateClauses cs v d).1.appliedDefaults := by
  intro cs
  induction cs with
  | nil => intro v d h; exact h
  | cons c cs ih =>
    intro v d h
    unfold validateClauses at *
    rw [List.foldl_cons]
    have hrec := ih (clauseStep (v, d) c).1 (clauseStep (v, d) c).2
    rw [show ((clauseStep (v, d) c).1, (clauseStep (v, d) c).2) =
      clauseStep (v, d) c from rfl] at hrec
    apply hrec
    rcases (clauseStep_spec v d c).2.1 with hd | ⟨d0, hd⟩
    · rw [hd]; exact h
    · rw [hd]; exact List.mem_append_left _ h

theorem validateClauses_errors_mono {x : String} :
    ∀ {cs : List ClauseRule} (v : Validation) (d : List (String × Value)),
      x ∈ v.errors → x ∈ (validateClauses cs v d).1.errors := by
  intro cs
  induction cs with
  | nil => intro v d h; exact h
  | cons c cs ih =>
    intro v d h
    unfold validateClauses at *
    rw [List.foldl_cons]
    have hrec := ih (clauseStep (v, d) c).1 (clauseStep (v, d) c).2
    rw [show ((clauseStep (v, d) c).1, (clauseStep (v, d) c).2) =
      clauseStep (v, d) c from rfl] at hrec
    apply hrec
    rcases (clauseStep_spec v d c).1 with hd | hd
    · rw [hd]; exact h
    · rw [hd]; exact List.mem_append_left _ h

theorem validateClauses_valid_false :
    ∀ {cs : List ClauseRule} (v : Validation) (d : List (String × Value)),
      v.valid = false → (validateClauses cs v d).1.valid = false := by
  intro cs
  induction cs with
  | nil => intro v d h; exact h
  | cons c cs ih =>
    intro v d h
    unfold validateClauses at *
    rw [List.foldl_cons]
    have hrec := ih (clauseStep (v, d) c).1 (clauseStep (v, d) c).2
    rw [show ((clauseStep (v, d) c).1, (clauseStep (v, d) c).2) =
      clauseStep (v, d) c from rfl] at hrec
    apply hrec
    rcases (clauseStep_spec v d c).2.2.1 with hd | hd
    · rw [hd]; exact h
    · exact hd

/-- One numeric-constraint step never touches the applied defaults, never
resurrects validity, and only appends to the errors. -/
theorem constraintStep_spec (d : List (String × Value)) (v : Validation)
    (e : String × LawConstraint) :
    (constraintStep d v e).appliedDefaults = v.appliedDefaults ∧
    ((constraintStep d v e).valid = v.valid ∨ (constraintStep d v e).valid = false) ∧
    (∃ tail, (constraintStep d v e).errors = v.errors ++ tail) := by
  rcases e with ⟨field, c⟩
  simp only [constraintStep]
  cases hget : dictGet d field with
  | none => simp
  | some val =>
    by_cases htr : pyTruthy val = true
    · simp only [htr, Bool.not_true, Bool.false_eq_true, if_false]
      by_cases hmm : (c.min.isSome || c.max.isSome) = true
      · simp only [hmm, if_true]
        cases hnum : pyFloatOfValue val with
        | none => simp
        | some num =>
          cases hmin : c.min with
          | some m =>
            by_cases hlt : num < (m : ℚ)
            · cases hmax : c.max with
              | some mx =>
                by_cases hgt : (mx : ℚ) < num
                · simp [hlt, hgt]
                · simp [hlt, hgt]
              | none => simp [hlt]
            · cases hmax : c.max with
              | some mx =>
                by_cases hgt : (mx : ℚ) < num
                · simp [hlt, hgt]
                · simp [hlt, hgt]
              | none => simp [hlt]
          | none =>
            cases hmax : c.max with
            | some mx =>
              by_cases hgt : (mx : ℚ) < num
              · simp [hgt]
              · simp [hgt]
            | none => simp
      · simp [hmm]
    · simp only [Bool.not_eq_true] at htr
      simp [htr]

theorem constraintsFold_appliedDefaults (d : List (String × Value)) :
    ∀ (cons : List (String × LawConstraint)) (v : Validation),
    (cons.foldl (constraintStep d) v).appliedDefaults = v.appliedDefaults := by
  intro cons
  induction cons with
  | nil => intro v; rfl
  | cons e es ih =>
    intro v
    rw [List.foldl_cons, ih, (constraintStep_spec d v e).1]

theorem constraintsFold_valid_false (d : List (String × Value)) :
    ∀ (cons : List (String × LawConstraint)) (v : Validation),
      v.valid = false → (cons.foldl (constraintStep d) v).valid = false := by
  intro cons
  induction cons with
  | nil => intro v h; exact h
  | cons e es ih =>
    intro v h
    rw [List.foldl_cons]
    apply ih
    rcases (constraintStep_spec d v e).2.1 with hv | hv
    · rw [hv]; exact h
    · exact hv

theorem constraintsFold_errors_mono (d : List (String × Value)) {x : String} :
    ∀ (cons : List (String × LawConstraint)) (v : Validation),
      x ∈ v.errors → x ∈ (cons.foldl (constraintStep d) v).errors := by
  intro cons
  induction cons with
  | nil => intro v h; exact h
  | cons e es ih =>
    intro v h
    rw [List.foldl_cons]
    apply ih
    obtain ⟨tail, ht⟩ := (constraintStep_spec d v e).2.2
    rw [ht]
    exact List.mem_append_left _ h

theorem validateClauses_append (cs₁ cs₂ : List ClauseRule) (v : Validation)
    (d : List (String × Value)) :
    validateClauses (cs₁ ++ cs₂) v d =
      validateClauses cs₂ (validateClauses cs₁ v d).1 (validateClauses cs₁ v d).2 := by
  unfold validateClauses
  rw [List.foldl_append]

theorem validateClauses_cons (c : ClauseRule) (cs : List ClauseRule)
    (v : Validation) (d : List (String × Value)) :
    validateClauses (c :: cs) v d =
      validateClauses cs (clauseStep (v, d) c).1 (clauseStep (v, d) c).2 := by
  unfold validateClauses
  rw [List.foldl_cons]

/-- C6.  For a required-clause rule over a field that is missing or falsy
in the details: with a declared default the validator writes the default
into the details, records the applied-default note, and records no
missing-required error for the field (clause-pass count 0); the same rule
made mandatory with no default records exactly one missing-required error
for the field (count 1), which survives into the final outcome and makes
it invalid.  The hypotheses require the field to occur in exactly this one
rule (no other rule shares its display title). -/
theorem C6_validator_defaults_and_errors
    (tbl₁ tbl₀ : List (String × Laws)) (ct : String)
    (pre post : List ClauseRule) (cons : List (String × LawConstraint))
    (details : List (String × Value)) (name d0 : String) (mand : Bool)
    (h₁ : dictGet tbl₁ (pyLower ct) =
      some ⟨pre ++ ⟨name, mand, some d0⟩ :: post, cons⟩)
    (h₀ : dictGet tbl₀ (pyLower ct) =
      some ⟨pre ++ ⟨name, true, none⟩ :: post, cons⟩)
    (hmiss : clauseUnfilled details name = true)
    (hdist : ∀ c ∈ pre ++ post,
      pyTitle (underscoreToSpace c.name) ≠ pyTitle (underscoreToSpace name)) :
    dictGet (validateAgainstLawC4 tbl₁ ct details).2 name = some (.vStr d0) ∧
    appliedDefaultStr name d0 ∈
      (validateAgainstLawC4 tbl₁ ct details).1.appliedDefaults ∧
    ((validateClauses (pre ++ ⟨name, mand, some d0⟩ :: post)
        ⟨true, [], [], []⟩ details).1.errors).count (missingErrStr name) = 0 ∧
    ((validateClauses (pre ++ ⟨name, true, none⟩ :: post)
        ⟨true, [], [], []⟩ details).1.errors).count (missingErrStr name) = 1 ∧
    missingErrStr name ∈ (validateAgainstLawC4 tbl₀ ct details).1.errors ∧
    (validateAgainstLawC4 tbl₀ ct details).1.valid = false := by
  have hnames : ∀ c ∈ pre ++ post, c.name ≠ name := by
    intro c hc heq
    exact hdist c hc (by rw [heq])
  have hnamesPre : ∀ c ∈ pre, c.name ≠ name :=
    fun c hc => hnames c (List.mem_append_left _ hc)
  have hnamesPost : ∀ c ∈ post, c.name ≠ name :=
    fun c hc => hnames c (List.mem_append_right _ hc)
  have herrPre : ∀ c ∈ pre, missingErrStr c.name ≠ missingErrStr name :=
    fun c hc => missingErrStr_ne (hdist c (List.mem_append_left _ hc))
  have herrPost : ∀ c ∈ post, missingErrStr c.name ≠ missingErrStr name :=
    fun c hc => missingErrStr_ne (hdist c (List.mem_append_right _ hc))
  -- the shared prefix pass
  have hgetPre : dictGet (validateClauses pre ⟨true, [], [], []⟩ details).2 name =
      dictGet details name :=
    validateClauses_get_ne hnamesPre ⟨true, [], [], []⟩ details
  have huPre :
      clauseUnfilled (validateClauses pre ⟨true, [], [], []⟩ details).2 name = true := by
    unfold clauseUnfilled at hmiss ⊢
    rw [hgetPre]
    exact hmiss
  have hcountPre : ((validateClauses pre ⟨true, [], [], []⟩ details).1.errors).count
      (missingErrStr name) = 0 := by
    rw [validateClauses_count_ne herrPre ⟨true, [], [], []⟩ details]
    rfl
  -- the step at the distinguished rule, with a default
  have hstep₁ : clauseStep
      ((validateClauses pre ⟨true, [], [], []⟩ details).1,
       (validateClauses pre ⟨true, [], [], []⟩ details).2) ⟨name, mand, some d0⟩ =
      ({ (validateClauses pre ⟨true, [], [], []⟩ details).1 with
          appliedDefaults :=
            (validateClauses pre ⟨true, [], [], []⟩ details).1.appliedDefaults ++
              [appliedDefaultStr name d0] },
        dictSet (validateClauses pre ⟨true, [], [], []⟩ details).2 name (.vStr d0)) := by
    simp only [clauseStep]
    rw [if_pos huPre]
  -- the step at the distinguished rule, mandatory with no default
  have hstep₀ : clauseStep
      ((validateClauses pre ⟨true, [], [], []⟩ details).1,
       (validateClauses pre ⟨true, [], [], []⟩ details).2) ⟨name, true, none⟩ =
      ({ (validateClauses pre ⟨true, [], [], []⟩ details).1 with
          errors := (validateClauses pre ⟨true, [], [], []⟩ details).1.errors ++
            [missingErrStr name],
          valid := false },
        (validateClauses pre ⟨true, [], [], []⟩ details).2) := by
    simp only [clauseStep]
    rw [if_pos huPre]
    simp
  -- decomposing the two clause passes around the distinguished rule
  have hdec₁ : validateClauses (pre ++ ⟨name, mand, some d0⟩ :: post)
      ⟨true, [], [], []⟩ details =
      validateClauses post
        { (validateClauses pre ⟨true, [], [], []⟩ details).1 with
            appliedDefaults :=
              (validateClauses pre ⟨true, [], [], []⟩ details).1.appliedDefaults ++
                [appliedDefaultStr name d0] }
        (dictSet (validateClauses pre ⟨true, [], [], []⟩ details).2 name
          (.vStr d0)) := by
    rw [validateClauses_append, validateClauses_cons, hstep₁]
  have hdec₀ : validateClauses (pre ++ ⟨name, true, none⟩ :: post)
      ⟨true, [], [], []⟩ details =
      validateClauses post
        { (validateClauses pre ⟨true, [], [], []⟩ details).1 with
            errors := (validateClauses pre ⟨true, [], [], []⟩ details).1.errors ++
              [missingErrStr name],
            valid := false }
        (validateClauses pre ⟨true, [], [], []⟩ details).2 := by
    rw [validateClauses_append, validateClauses_cons, hstep₀]
  -- the full validator runs, reduced to the clause pass plus the
  -- constraint fold
  have hval₁ : validateAgainstLawC4 tbl₁ ct details =
      (cons.foldl
        (constraintStep (validateClauses (pre ++ ⟨name, mand, some d0⟩ :: post)
          ⟨true, [], [], []⟩ details).2)
        (validateClauses (pre ++ ⟨name, mand, some d0⟩ :: post)
          ⟨true, [], [], []⟩ details).1,
       (validateClauses (pre ++ ⟨name, mand, some d0⟩ :: post)
          ⟨true, [], [], []⟩ details).2) := by
    unfold validateAgainstLawC4
    rw [h₁]
  have hval₀ : validateAgainstLawC4 tbl₀ ct details =
      (cons.foldl
        (constraintStep (validateClauses (pre ++ ⟨name, true, none⟩ :: post)
          ⟨true, [], [], []⟩ details).2)
        (validateClauses (pre ++ ⟨name, true, none⟩ :: post)
          ⟨true, [], [], []⟩ details).1,
       (validateClauses (pre ++ ⟨name, true, none⟩ :: post)
          ⟨true, [], [], []⟩ details).2) := by
    unfold validateAgainstLawC4
    rw [h₀]
  refine ⟨?_, ?_, ?_, ?_, ?_, ?_⟩
  · rw [hval₁]
    show dictGet (validateClauses (pre ++ ⟨name, mand, some d0⟩ :: post)
      ⟨true, [], [], []⟩ details).2 name = some (.vStr d0)
    rw [hdec₁, validateClauses_get_ne hnamesPost]
    exact dictGet_dictSet_self _ _ _
  · rw [hval₁]
    show appliedDefaultStr name d0 ∈ (cons.foldl
      (constraintStep (validateClauses (pre ++ ⟨name, mand, some d0⟩ :: post)
        ⟨true, [], [], []⟩ details).2)
      (validateClauses (pre ++ ⟨name, mand, some d0⟩ :: post)
        ⟨true, [], [], []⟩ details).1).appliedDefaults
    rw [constraintsFold_appliedDefaults, hdec₁]
    apply validateClauses_defaults_mono
    exact List.mem_append_right _ (List.mem_singleton.mpr rfl)
  · rw [hdec₁, validateClauses_count_ne herrPost]
    exact hcountPre
  · rw [hdec₀, validateClauses_count_ne herrPost]
    show ((validateClauses pre ⟨true, [], [], []⟩ details).1.errors ++
      [missingErrStr name]).count (missingErrStr name) = 1
    rw [List.count_append, hcountPre]
    simp
  · rw [hval₀]
    show missingErrStr name ∈ (cons.foldl
      (constraintStep (validateClauses (pre ++ ⟨name, true, none⟩ :: post)
        ⟨true, [], [], []⟩ details).2)
      (validateClauses (pre ++ ⟨name, true, none⟩ :: post)
        ⟨true, [], [], []⟩ details).1).errors
    apply constraintsFold_errors_mono
    rw [hdec₀]
    apply validateClauses_errors_mono
    exact List.mem_append_right _ (List.mem_singleton.mpr rfl)
  · rw [hval₀]
    show (cons.foldl
      (constraintStep (validateClauses (pre ++ ⟨name, true, none⟩ :: post)
        ⟨true, [], [], []⟩ details).2)
      (validateClauses (pre ++ ⟨name, true, none⟩ :: post)
        ⟨true, [], [], []⟩ details).1).valid = false
    apply constraintsFold_valid_false
    rw [hdec₀]
    apply validateClauses_valid_false
    rfl

/-- C6 witness: a one-rule law table over empty details.  With the default
declared, the default is written and no error recorded; with the rule
mandatory and no default, exactly one blocking error is recorded and the
outcome is invalid. -/
theorem C6_validator_defaults_and_errors_witness :
    clauseUnfilled ([] : List (String × Value)) "probation_period" = true ∧
    dictGet (validateAgainstLawC4
        [("employment", ⟨[⟨"probation_period", false, some "6 months"⟩], []⟩)]
        "EMPLOYMENT" []).2 "probation_period" = some (.vStr "6 months") ∧
    appliedDefaultStr "probation_period" "6 months" ∈
      (validateAgainstLawC4
        [("employment", ⟨[⟨"probation_period", false, some "6 months"⟩], []⟩)]
        "EMPLOYMENT" []).1.appliedDefaults ∧
    ((validateClauses [⟨"probation_period", false, some "6 months"⟩]
        ⟨true, [], [], []⟩ []).1.errors).count
      (missingErrStr "probation_period") = 0 ∧
    ((validateClauses [⟨"probation_period", true, none⟩]
        ⟨true, [], [], []⟩ []).1.errors).count
      (missingErrStr "probation_period") = 1 ∧
    (validateAgainstLawC4
        [("employment", ⟨[⟨"probation_period", true, none⟩], []⟩)]
        "EMPLOYMENT" []).1.valid = false := by
  have h := C6_validator_defaults_and_errors
    [("employment", ⟨[⟨"probation_period", false, some "6 months"⟩], []⟩)]
    [("employment", ⟨[⟨"probation_period", true, none⟩], []⟩)]
    "EMPLOYMENT" [] [] [] [] "probation_period" "6 months" false
    (by decide) (by decide) (by decide) (by simp)
  exact ⟨by decide, h.1, h.2.1, h.2.2.1, h.2.2.2.1, h.2.2.2.2.2⟩

/-! ## C1: the money normalizer -/

theorem digitChar_money {k : Nat} (h : k < 10) :
    (digitChar k).isDigit = true ∧ digitChar k ≠ ',' ∧ digitChar k ≠ '.' ∧
      digitVal (digitChar k) = k ∧ (k ≠ 0 → digitChar k ≠ '0') := by
  interval_cases k <;> exact ⟨by decide, by decide, by decide, by decide, by decide⟩

theorem moneyChar_digitChar {k : Nat} (h : k < 10) : moneyChar (digitChar k) = true := by
  simp [moneyChar, (digitChar_money h).1]

theorem isEmpty_false {α : Type} {l : List α} (h : l ≠ []) : l.isEmpty = false := by
  cases l with
  | nil => exact absurd rfl h
  | cons a t => rfl

theorem filter_ne_comma_eq_self {l : List Char} (h : ∀ c ∈ l, c ≠ ',') :
    l.filter (fun c => c ≠ ',') = l :=
  List.filter_eq_self.mpr (fun c hc => by simp [h c hc])

theorem rstripChar_concat_eq (x : Char) (l : List Char) :
    rstripChar x (l ++ [x]) = rstripChar x l := by
  simp [rstripChar, List.dropWhile_cons]

theorem rstripChar_concat_ne (x c : Char) (h : c ≠ x) (l : List Char) :
    rstripChar x (l ++ [c]) = l ++ [c] := by
  simp [rstripChar, List.dropWhile_cons, h]

theorem rstripChar_eq_self (x : Char) {l : List Char} (h : ∀ c ∈ l, c ≠ x) :
    rstripChar x l = l := by
  unfold rstripChar
  rw [dropWhile_eq_self_of_all, List.reverse_reverse]
  intro c hc
  exact decide_eq_false (h c (List.mem_reverse.mp hc))

theorem splitOnChar_of_not_mem (sep : Char) :
    ∀ {l : List Char}, (∀ c ∈ l, c ≠ sep) → splitOnChar sep l = [l]
  | [], _ => rfl
  | c :: rest, h => by
    unfold splitOnChar
    rw [if_neg (h c (by simp))]
    rw [splitOnChar_of_not_mem sep (fun d hd => h d (by simp [hd]))]

theorem splitOnChar_append (sep : Char) :
    ∀ (as bs : List Char), (∀ c ∈ as, c ≠ sep) → (∀ c ∈ bs, c ≠ sep) →
      splitOnChar sep (as ++ sep :: bs) = [as, bs]
  | [], bs, _, hb => by
    simp only [List.nil_append]
    unfold splitOnChar
    rw [if_pos rfl, splitOnChar_of_not_mem sep hb]
  | a :: as, bs, ha, hb => by
    simp only [List.cons_append]
    unfold splitOnChar
    rw [if_neg (ha a (by simp))]
    rw [splitOnChar_append sep as bs (fun c hc => ha c (by simp [hc])) hb]

theorem natCharsAux_foldl {fuel n : Nat} (h : n < fuel) (a : Nat) :
    (natCharsAux fuel n).foldl (fun acc c => 10 * acc + digitVal c) a =
      a * 10 ^ (natCharsAux fuel n).length + n := by
  induction fuel generalizing n a with
  | zero => omega
  | succ fuel ih =>
    by_cases h10 : n < 10
    · simp only [natCharsAux, if_pos h10, List.foldl_cons, List.foldl_nil,
        List.length_cons, List.length_nil, (digitChar_money h10).2.2.2.1, pow_one]
      omega
    · have hdiv : n / 10 < fuel := by omega
      simp only [natCharsAux, if_neg h10, List.foldl_append, List.foldl_cons,
        List.foldl_nil, List.length_append, List.length_cons, List.length_nil]
      rw [ih hdiv]
      rw [(digitChar_money (show n % 10 < 10 by omega)).2.2.2.1]
      have key : ∀ A : Nat, 10 * (A + n / 10) + n % 10 = A * 10 + n := by
        intro A
        omega
      rw [key (a * 10 ^ (natCharsAux fuel (n / 10)).length)]
      ring

theorem charsVal_natChars (n : Nat) : charsVal (natChars n) = n := by
  unfold charsVal natChars
  rw [natCharsAux_foldl (Nat.lt_succ_self n) 0]
  simp

theorem natChars_ne_dot (m : Nat) : ∀ c ∈ natChars m, c ≠ '.' := by
  intro c hc
  obtain ⟨k, hk, rfl⟩ := natChars_mem c hc
  exact (digitChar_money hk).2.2.1

theorem group3Rev_mem : ∀ (l : List Char) (x : Char), x ∈ group3Rev l → x ∈ l ∨ x = ','
  | [], x, h => by simp [group3Rev] at h
  | [a], x, h => by
    simp only [group3Rev] at h
    exact Or.inl h
  | [a, b], x, h => by
    simp only [group3Rev] at h
    exact Or.inl h
  | [a, b, c], x, h => by
    simp only [group3Rev] at h
    exact Or.inl h
  | a :: b :: c :: d :: rest, x, h => by
    simp only [group3Rev, List.mem_cons] at h
    rcases h with rfl | rfl | rfl | rfl | h
    · exact Or.inl (by simp)
    · exact Or.inl (by simp)
    · exact Or.inl (by simp)
    · exact Or.inr rfl
    · rcases group3Rev_mem (d :: rest) x h with hm | hm
      · exact Or.inl (by simp [List.mem_cons] at hm ⊢; tauto)
      · exact Or.inr hm

theorem group3Rev_filter :
    ∀ (l : List Char), (∀ c ∈ l, c ≠ ',') →
      (group3Rev l).filter (fun c => c ≠ ',') = l
  | [], _ => by simp [group3Rev]
  | [a], h => by simp [group3Rev, h a (by simp)]
  | [a, b], h => by simp [group3Rev, h a (by simp), h b (by simp)]
  | [a, b, c], h => by simp [group3Rev, h a (by simp), h b (by simp), h c (by simp)]
  | a :: b :: c :: d :: rest, h => by
    have hr := group3Rev_filter (d :: rest)
      (fun x hx => h x (by simp [List.mem_cons] at hx ⊢; tauto))
    simp only [group3Rev, List.filter_cons, h a (by simp), h b (by simp),
      h c (by simp), hr]
    simp [h a (by simp), h b (by simp), h c (by simp)]

theorem filter_reverse_eq (p : Char → Bool) (l : List Char) :
    l.reverse.filter p = (l.filter p).reverse := by
  induction l with
  | nil => rfl
  | cons a t ih =>
    by_cases hpa : p a = true
    · simp [List.filter_cons, List.filter_append, hpa, ih]
    · simp [List.filter_cons, List.filter_append, hpa, ih]

theorem group3_mem {ds : List Char} {c : Char} (hc : c ∈ group3 ds) :
    c ∈ ds ∨ c = ',' := by
  unfold group3 at hc
  rw [List.mem_reverse] at hc
  rcases group3Rev_mem _ _ hc with hm | hm
  · exact Or.inl (List.mem_reverse.mp hm)
  · exact Or.inr hm

theorem group3_filter {ds : List Char} (h : ∀ c ∈ ds, c ≠ ',') :
    (group3 ds).filter (fun c => c ≠ ',') = ds := by
  unfold group3
  rw [filter_reverse_eq]
  rw [group3Rev_filter ds.reverse (fun c hc => h c (List.mem_reverse.mp hc))]
  exact List.reverse_reverse ds

theorem group3_natChars_money (m : Nat) :
    ∀ c ∈ group3 (natChars m), moneyChar c = true := by
  intro c hc
  rcases group3_mem hc with hm | hm
  · obtain ⟨k, hk, rfl⟩ := natChars_mem c hm
    exact moneyChar_digitChar hk
  · subst hm
    decide

theorem group3_natChars_ne_dot (m : Nat) :
    ∀ c ∈ group3 (natChars m), c ≠ '.' := by
  intro c hc
  rcases group3_mem hc with hm | hm
  · exact natChars_ne_dot m c hm
  · subst hm
    decide

theorem group3_natChars_comma_filter (m : Nat) :
    (group3 (natChars m)).filter (fun c => c ≠ ',') = natChars m :=
  group3_filter (fun c hc => by
    obtain ⟨k, hk, rfl⟩ := natChars_mem c hc
    exact (digitChar_money hk).2.1)

theorem renderMoney_toList_hundreds {n : Nat} (h : n % 100 = 0) :
    (renderMoney n).toList = group3 (natChars (n / 100)) := by
  have h00 : digitChar (n % 100 / 10) = '0' := by
    simp only [show n % 100 / 10 = 0 by omega]
    decide
  have h01 : digitChar (n % 10) = '0' := by
    simp only [show n % 10 = 0 by omega]
    decide
  simp only [renderMoney, h00, h01]
  rw [show group3 (natChars (n / 100)) ++ ['.', '0', '0'] =
      ((group3 (natChars (n / 100)) ++ ['.']) ++ ['0']) ++ ['0'] by simp]
  rw [rstripChar_concat_eq, rstripChar_concat_eq,
    rstripChar_concat_ne '0' '.' (by decide) _,
    rstripChar_concat_eq,
    rstripChar_eq_self '.' (group3_natChars_ne_dot (n / 100))]
  rfl

theorem renderMoney_toList_tenths {n : Nat} (h10 : n % 10 = 0)
    (hd : n % 100 / 10 ≠ 0) :
    (renderMoney n).toList =
      group3 (natChars (n / 100)) ++ ['.', digitChar (n % 100 / 10)] := by
  have hdlt : n % 100 / 10 < 10 := by omega
  have h01 : digitChar (n % 10) = '0' := by
    simp only [h10]
    decide
  simp only [renderMoney, h01]
  rw [show group3 (natChars (n / 100)) ++ ['.', digitChar (n % 100 / 10), '0'] =
      ((group3 (natChars (n / 100)) ++ ['.']) ++ [digitChar (n % 100 / 10)]) ++ ['0']
      by simp]
  rw [rstripChar_concat_eq,
    rstripChar_concat_ne '0' _ ((digitChar_money hdlt).2.2.2.2 hd) _,
    rstripChar_concat_ne '.' _ (digitChar_money hdlt).2.2.1 _]
  show (group3 (natChars (n / 100)) ++ ['.']) ++ [digitChar (n % 100 / 10)] =
    group3 (natChars (n / 100)) ++ ['.', digitChar (n % 100 / 10)]
  simp

theorem renderMoney_toList_cents {n : Nat} (he : n % 10 ≠ 0) :
    (renderMoney n).toList =
      group3 (natChars (n / 100)) ++
        ['.', digitChar (n % 100 / 10), digitChar (n % 10)] := by
  have helt : n % 10 < 10 := by omega
  simp only [renderMoney]
  rw [show group3 (natChars (n / 100)) ++
        ['.', digitChar (n % 100 / 10), digitChar (n % 10)] =
      (group3 (natChars (n / 100)) ++ ['.', digitChar (n % 100 / 10)]) ++
        [digitChar (n % 10)] by simp]
  rw [rstripChar_concat_ne '0' _ ((digitChar_money helt).2.2.2.2 he) _,
    rstripChar_concat_ne '.' _ (digitChar_money helt).2.2.1 _]
  rfl

theorem parseMoney_natChars (m : Nat) :
    parseMoneyChars (natChars m) = some (m, []) := by
  unfold parseMoneyChars
  rw [if_neg (show ¬((natChars m).isEmpty = true) by
    rw [isEmpty_false (natChars_ne_nil m)]
    simp)]
  rw [splitOnChar_of_not_mem '.' (natChars_ne_dot m)]
  show some (charsVal (natChars m), []) = some (m, [])
  rw [charsVal_natChars]

theorem parseMoney_frac (m : Nat) (bs : List Char)
    (hbd : ∀ c ∈ bs, c ≠ '.') :
    parseMoneyChars (natChars m ++ '.' :: bs) = some (m, bs.map digitVal) := by
  unfold parseMoneyChars
  rw [if_neg (show ¬((natChars m ++ '.' :: bs).isEmpty = true) by
    rw [isEmpty_false (by simp)]
    simp)]
  rw [splitOnChar_append '.' (natChars m) bs (natChars_ne_dot m) hbd]
  show (if (natChars m).isEmpty && bs.isEmpty then none
      else some (charsVal (natChars m), bs.map digitVal)) =
    some (m, bs.map digitVal)
  rw [isEmpty_false (natChars_ne_nil m)]
  simp [charsVal_natChars]

theorem roundCents_nil (q : Nat) : roundCents q [] = q * 100 := by
  simp [roundCents]

theorem roundCents_one (q d : Nat) : roundCents q [d] = q * 100 + 10 * d := by
  simp [roundCents]

theorem roundCents_two (q d e : Nat) :
    roundCents q [d, e] = q * 100 + 10 * d + e := by
  simp [roundCents]

theorem formatMoney_renderMoney (n : Nat) :
    formatMoney (renderMoney n) = renderMoney n := by
  by_cases h1 : n % 100 = 0
  · simp only [formatMoney, renderMoney_toList_hundreds h1]
    rw [List.filter_eq_self.mpr (group3_natChars_money (n / 100))]
    rw [group3_natChars_comma_filter (n / 100)]
    rw [parseMoney_natChars (n / 100)]
    show renderMoney (roundCents (n / 100) []) = renderMoney n
    rw [roundCents_nil]
    congr 1
    omega
  · by_cases h2 : n % 10 = 0
    · have hd : n % 100 / 10 ≠ 0 := by omega
      have hdlt : n % 100 / 10 < 10 := by omega
      simp only [formatMoney, renderMoney_toList_tenths h2 hd]
      have hall : ∀ c ∈ group3 (natChars (n / 100)) ++
          ['.', digitChar (n % 100 / 10)], moneyChar c = true := by
        intro c hc
        rcases List.mem_append.mp hc with hm | hm
        · exact group3_natChars_money _ c hm
        · rcases List.mem_cons.mp hm with rfl | hm2
          · decide
          · rcases List.mem_singleton.mp hm2 with rfl
            exact moneyChar_digitChar hdlt
      rw [List.filter_eq_self.mpr hall, List.filter_append,
        group3_natChars_comma_filter (n / 100),
        filter_ne_comma_eq_self (by
          intro c hc
          rcases List.mem_cons.mp hc with rfl | hc2
          · decide
          · rcases List.mem_singleton.mp hc2 with rfl
            exact (digitChar_money hdlt).2.1),
        parseMoney_frac (n / 100) [digitChar (n % 100 / 10)]
          (by
            intro c hc
            rcases List.mem_singleton.mp hc with rfl
            exact (digitChar_money hdlt).2.2.1)]
      show renderMoney (roundCents (n / 100)
          (List.map digitVal [digitChar (n % 100 / 10)])) = renderMoney n
      rw [show List.map digitVal [digitChar (n % 100 / 10)] = [n % 100 / 10] by
        simp [(digitChar_money hdlt).2.2.2.1]]
      rw [roundCents_one]
      congr 1
      omega
    · have helt : n % 10 < 10 := by omega
      have hdlt : n % 100 / 10 < 10 := by omega
      simp only [formatMoney, renderMoney_toList_cents h2]
      have hall : ∀ c ∈ group3 (natChars (n / 100)) ++
          ['.', digitChar (n % 100 / 10), digitChar (n % 10)],
          moneyChar c = true := by
        intro c hc
        rcases List.mem_append.mp hc with hm | hm
        · exact group3_natChars_money _ c hm
        · rcases List.mem_cons.mp hm with rfl | hm2
          · decide
          · rcases List.mem_cons.mp hm2 with rfl | hm3
            · exact moneyChar_digitChar hdlt
            · rcases List.mem_singleton.mp hm3 with rfl
              exact moneyChar_digitChar helt
      rw [List.filter_eq_self.mpr hall, List.filter_append,
        group3_natChars_comma_filter (n / 100),
        filter_ne_comma_eq_self (by
          intro c hc
          rcases List.mem_cons.mp hc with rfl | hc2
          · decide
          · rcases List.mem_cons.mp hc2 with rfl | hc3
            · exact (digitChar_money hdlt).2.1
            · rcases List.mem_singleton.mp hc3 with rfl
              exact (digitChar_money helt).2.1),
        parseMoney_frac (n / 100)
          [digitChar (n % 100 / 10), digitChar (n % 10)]
          (by
            intro c hc
            rcases List.mem_cons.mp hc with rfl | hc2
            · exact (digitChar_money hdlt).2.2.1
            · rcases List.mem_singleton.mp hc2 with rfl
              exact (digitChar_money helt).2.2.1)]
      show renderMoney (roundCents (n / 100)
          (List.map digitVal [digitChar (n % 100 / 10), digitChar (n % 10)])) =
        renderMoney n
      rw [show List.map digitVal [digitChar (n % 100 / 10), digitChar (n % 10)] =
          [n % 100 / 10, n % 10] by
        simp [(digitChar_money hdlt).2.2.2.1, (digitChar_money helt).2.2.2.1]]
      rw [roundCents_two]
      congr 1
      omega

/-- C1 (counterexample to the claim as stated): the spec gives
`"50,000.00"` as its example of an already-normalized money value, yet the
normalizer maps it to `"50,000"` rather than to itself — the rendering
step trims the trailing `.00`, so the quoted example is not a fixed
point. -/
theorem C1_counterexample_money_50000 :
    formatMoney "50,000.00" = "50,000" ∧ "50,000" ≠ "50,000.00" :=
  ⟨by decide, by decide⟩

/-- C1 (amended): the money normalizer is idempotent on every value, and
in particular on each of its own outputs: running `_format_money` a second
time always returns the first result unchanged, because a value that fails
to parse is returned verbatim and a rendered value reparses to the same
amount in cents. -/
theorem C1_money_normalizer_idempotent (v : String) :
    formatMoney (formatMoney v) = formatMoney v := by
  rcases hp : parseMoneyChars ((v.toList.filter moneyChar).filter
      (fun c => c ≠ ',')) with _ | ⟨ip, frac⟩
  · have hv : formatMoney v = v := by
      simp only [formatMoney, hp]
    rw [hv]
    exact hv
  · have hv : formatMoney v = renderMoney (roundCents ip frac) := by
      simp only [formatMoney, hp]
    rw [hv]
    exact formatMoney_renderMoney (roundCents ip frac)

end ContractAgent
